import Mathlib

/-!
Verification development for the vimeet meeting-coordination server.

The in-memory room state machine and broadcast coordinator of the server
(`src/server.rs`) and the inbound frame classification of the session
(`src/main.rs`) are shallowly embedded below.  Rust `HashMap`s are modelled
as association lists; `HashMap::insert` replaces an existing binding in
place, `HashMap::remove` deletes the binding, and iteration follows list
order (the Rust iteration order is unspecified, so no claim below depends
on the relative order of distinct map entries).  `serde_json::Value` is
modelled by the inductive `Json` (integer numbers only); its `PartialEq`
is structural equality, and `Value::to_string()` is `Json.render`.
Partial operations that can panic in Rust (`unwrap`, `HashMap` indexing)
are modelled with `Option`, `none` standing for the panic.
-/

namespace Vimeet

mutual
/-- JSON values as in `serde_json::Value`, with integer numbers.  Arrays and
objects carry their own list types so that decidable equality can be
derived; they are isomorphic to `List Json` and `List (String × Json)`. -/
inductive Json where
  | null : Json
  | bool (b : Bool) : Json
  | num (n : Int) : Json
  | str (s : String) : Json
  | arr (elems : JsonList) : Json
  | obj (fields : JsonFields) : Json
inductive JsonList where
  | nil : JsonList
  | cons (hd : Json) (tl : JsonList) : JsonList
inductive JsonFields where
  | nil : JsonFields
  | cons (key : String) (val : Json) (tl : JsonFields) : JsonFields
end

deriving instance DecidableEq for Json

/-- Association-list lookup: the value of the first entry with the given
key, as `HashMap::get`. -/
def lookupA {κ α : Type} [DecidableEq κ] : List (κ × α) → κ → Option α
  | [], _ => none
  | (k0, v0) :: t, k => if k0 = k then some v0 else lookupA t k

/-- `HashMap::contains_key`. -/
def containsA {κ α : Type} [DecidableEq κ] (l : List (κ × α)) (k : κ) : Bool :=
  (lookupA l k).isSome

/-- `HashMap::insert`: replace the binding in place when the key is
present, otherwise append a new entry. -/
def insertA {κ α : Type} [DecidableEq κ] : List (κ × α) → κ → α → List (κ × α)
  | [], k, v => [(k, v)]
  | (k0, v0) :: t, k, v => if k0 = k then (k, v) :: t else (k0, v0) :: insertA t k v

/-- `HashMap::remove`: delete the first entry with the given key. -/
def removeA {κ α : Type} [DecidableEq κ] : List (κ × α) → κ → List (κ × α)
  | [], _ => []
  | (k0, v0) :: t, k => if k0 = k then t else (k0, v0) :: removeA t k

/-- The user object (`server.rs`): name and elevation flag. -/
structure User where
  name : String
  elevated : Bool
deriving DecidableEq

/-- The poll option object (`server.rs::PollOption`). -/
structure PollOption where
  title : String
  owner_id : Nat
  owner_name : String
  room_name : String
  poll_title : String
deriving DecidableEq

/-- The poll object (`server.rs::Poll`); `votes` is the
`HashMap<usize, String>` from voter id to option title. -/
structure Poll where
  title : String
  owner_id : Nat
  owner_name : String
  room_name : String
  options : List PollOption
  votes : List (Nat × String)
  closed : Bool
deriving DecidableEq

/-- A raised object (`server.rs::Raised`).  Its `PartialEq` compares only
`object` and `owner_id`; that comparison is spelled out at each use site
below, as the Rust code inlines it in its `retain` closures. -/
structure Raised where
  object : Json
  owner_id : Nat
  owner_name : String
deriving DecidableEq

/-- The room object (`server.rs::Room`). -/
structure Room where
  raised : List Raised
  polls : List Poll
  connected : List (Nat × User)
deriving DecidableEq

/-- `Room::default()`. -/
def Room.default : Room := ⟨[], [], []⟩

/-- `Room::remove_user`: purge every raised object owned by the user. -/
def Room.remove_user (r : Room) (user_id : Nat) : Room :=
  { r with raised := r.raised.filter fun e => decide (e.owner_id ≠ user_id) }

/-- `Room::is_elevated`: `Ok(flag)` when the user is connected, `Err`
otherwise; the `Result` is modelled by `Option`. -/
def Room.is_elevated (r : Room) (user_id : Nat) : Option Bool :=
  match lookupA r.connected user_id with
  | none => none
  | some u => some u.elevated

/-- `Room::set_elevated`: set the elevation flag when the user is
connected, otherwise do nothing. -/
def Room.set_elevated (r : Room) (user_id : Nat) (elevated : Bool) : Room :=
  match lookupA r.connected user_id with
  | none => r
  | some u => { r with connected := insertA r.connected user_id { u with elevated := elevated } }

/-- The coordinator state (`server.rs::WebSocketServer`).  Of the
`sessions` map only the key set is observable (the values are actor
addresses), so it is modelled as the list of registered session ids. -/
structure ServerState where
  sessions : List Nat
  rooms : List (String × Room)
deriving DecidableEq

/-- `WebSocketServer::default()`. -/
def initialState : ServerState := ⟨[], []⟩

/-- The outbound message shapes, one constructor per wire `type`
(`messages.rs::outbound` as constructed in `server.rs`). -/
inductive OutMsg where
  | joinedMsg (id : Nat) (name : String) (elevated : Bool)
  | allMsg (raised : List Raised) (joined : List (Nat × User))
  | selfMsg (object : Nat) (elevated : Bool)
  | raisedMsg (owner_id : Nat) (owner_name : String) (object : Json) (elevated : Bool)
  | lowerMsg (owner_id : Nat) (owner_name : String) (object : Json) (elevated : Bool)
  | instantMsg (owner_id : Nat) (owner_name : String) (object : Json) (elevated : Bool)
  | elevatedMsg (object : Nat) (elevated : Bool)
  | recededMsg (object : Nat) (elevated : Bool)
  | errorMsg (object : String) (description : String)
  | pollMsg (object : String)
  | pollOptionMsg (pollobject : String) (polloptionobject : String)
  | voteMsg (pollobject : String) (polloptionobject : String) (username : String) (userid : Nat)
  | deleteVoteMsg (pollobject : String) (polloptionobject : String) (userid : Nat)
  | closePollMsg (object : String)
deriving DecidableEq

/-- One delivery: the recipient session id and the message written to its
outbox. -/
abbrev Delivery := Nat × OutMsg

/-- `send_message_skip_user`: deliver to every connected member of the
room except `skip_id`, and only when the member has a registered session. -/
def sendSkip (st : ServerState) (room : String) (msg : OutMsg) (skip_id : Nat) : List Delivery :=
  match lookupA st.rooms room with
  | none => []
  | some r => r.connected.filterMap fun e =>
      if e.1 ≠ skip_id ∧ e.1 ∈ st.sessions then some (e.1, msg) else none

/-- `send_message_all`: implemented in the source as a skip of user id 0. -/
def sendAll (st : ServerState) (room : String) (msg : OutMsg) : List Delivery :=
  sendSkip st room msg 0

/-- `send_message_user`: deliver to the single member with the given id,
when connected and registered. -/
def sendUser (st : ServerState) (room : String) (msg : OutMsg) (user_id : Nat) : List Delivery :=
  match lookupA st.rooms room with
  | none => []
  | some r =>
      if containsA r.connected user_id ∧ user_id ∈ st.sessions then [(user_id, msg)] else []

/-- `send_message_all_elevated`. -/
def sendElevated (st : ServerState) (room : String) (msg : OutMsg) : List Delivery :=
  match lookupA st.rooms room with
  | none => []
  | some r => r.connected.filterMap fun e =>
      if e.2.elevated = true ∧ e.1 ∈ st.sessions then some (e.1, msg) else none

/-- `send_message_all_not_elevated`. -/
def sendNotElevated (st : ServerState) (room : String) (msg : OutMsg) : List Delivery :=
  match lookupA st.rooms room with
  | none => []
  | some r => r.connected.filterMap fun e =>
      if e.2.elevated = false ∧ e.1 ∈ st.sessions then some (e.1, msg) else none

/-- `send_error_user`. -/
def sendErrorUser (st : ServerState) (room error_code error_description : String)
    (user_id : Nat) : List Delivery :=
  sendUser st room (.errorMsg error_code error_description) user_id

/-- `rooms.entry(name).or_insert(Room::default())`, as a map transformer. -/
def ensureRoom (rooms : List (String × Room)) (name : String) : List (String × Room) :=
  if containsA rooms name then rooms else insertA rooms name Room.default

/-- The room under a name that is known to be present (used right after
`ensureRoom`, where the entry API cannot fail). -/
def getRoomD (rooms : List (String × Room)) (name : String) : Room :=
  (lookupA rooms name).getD Room.default

/-- Apply a mutation through the `entry` reference of a room: every entry
under the given name is mutated in place. -/
def updateRoom : List (String × Room) → String → (Room → Room) → List (String × Room)
  | [], _, _ => []
  | (k0, r0) :: t, name, f =>
      (if k0 = name then (k0, f r0) else (k0, r0)) :: updateRoom t name f

/-- `sessions.insert(user_id, addr)` restricted to the key set. -/
def insertSession (sessions : List Nat) (user_id : Nat) : List Nat :=
  if user_id ∈ sessions then sessions else sessions ++ [user_id]

/-- The room mutation performed by `Handler<Join>`: insert the joining
user with the computed elevation flag. -/
def joinUpdate (user_id : Nat) (user_name : String) (elevated : Bool) : Room → Room :=
  fun r => { r with connected := insertA r.connected user_id ⟨user_name, elevated⟩ }

/-- The room mutation performed by the vote handler: replace the poll at
the found index by the same poll with the new votes map. -/
def voteUpdate (idx : Nat) (poll : Poll) (votes : List (Nat × String)) : Room → Room :=
  fun r => { r with polls := r.polls.set idx { poll with votes := votes } }

/-- `Handler<Join>`: register the session, get-or-create the room, insert
the user (elevated exactly when the room had no connected member), then
emit `joined` to the others, the `all` snapshot and `self` to the joiner,
and replay every open poll (poll, options, votes with redacted identity)
to the joiner. -/
def join (st : ServerState) (user_id : Nat) (user_name room_name : String) :
    ServerState × List Delivery :=
  let sessions := insertSession st.sessions user_id
  let rooms := ensureRoom st.rooms room_name
  let room := getRoomD rooms room_name
  let elevated := if room.connected.length > 0 then false else true
  let rooms := updateRoom rooms room_name fun r =>
    { r with connected := insertA r.connected user_id ⟨user_name, elevated⟩ }
  let st1 : ServerState := ⟨sessions, rooms⟩
  let ds1 := sendSkip st1 room_name (.joinedMsg user_id user_name elevated) user_id
  let room1 := getRoomD st1.rooms room_name
  let ds2 := sendUser st1 room_name (.allMsg room1.raised room1.connected) user_id
  let ds3 := sendUser st1 room_name (.selfMsg user_id elevated) user_id
  let ds4 := (room1.polls.map fun poll =>
    if poll.closed then [] else
      sendUser st1 room_name (.pollMsg poll.title) user_id
      ++ poll.options.flatMap (fun o => sendUser st1 room_name (.pollOptionMsg poll.title o.title) user_id)
      ++ poll.votes.flatMap (fun v => sendUser st1 room_name (.voteMsg poll.title v.2 "" 0) user_id)).flatten
  (st1, ds1 ++ ds2 ++ ds3 ++ ds4)

/-- The first room (in map order) whose `connected` holds the user, as
scanned by the `Disconnect` handler. -/
def findRoomOf (rooms : List (String × Room)) (user_id : Nat) : Option String :=
  (rooms.find? fun e => containsA e.2.connected user_id).map (·.1)

/-- `Handler<Disconnect>`: when the session is registered, drop it, remove
the user from the room holding it and purge the raised objects owned by
it, broadcast the `all` snapshot, then delete the votes by the user in
every open poll, emitting per removed vote one `deletevote` with the real
id to the elevated members and one with id 0 to the non-elevated members. -/
def disconnect (st : ServerState) (user_id : Nat) : ServerState × List Delivery :=
  if user_id ∈ st.sessions then
    let sessions := st.sessions.filter fun x => decide (x ≠ user_id)
    match findRoomOf st.rooms user_id with
    | none => (⟨sessions, st.rooms⟩, [])
    | some room_name =>
      let rooms := updateRoom st.rooms room_name fun r =>
        Room.remove_user { r with connected := removeA r.connected user_id } user_id
      let st1 : ServerState := ⟨sessions, rooms⟩
      let room := getRoomD rooms room_name
      let ds1 := sendAll st1 room_name (.allMsg room.raised room.connected)
      let removed := (room.polls.map fun p =>
        if p.closed then []
        else (p.votes.filter fun v => decide (v.1 = user_id)).map fun v => (p.title, v.2)).flatten
      let rooms2 := updateRoom rooms room_name fun r =>
        { r with polls := r.polls.map fun p =>
            if p.closed then p
            else { p with votes := p.votes.filter fun v => decide (v.1 ≠ user_id) } }
      let st2 : ServerState := ⟨sessions, rooms2⟩
      let dsElev := removed.flatMap fun pr =>
        sendElevated st2 room_name (.deleteVoteMsg pr.1 pr.2 user_id)
      let dsNot := removed.flatMap fun pr =>
        sendNotElevated st2 room_name (.deleteVoteMsg pr.1 pr.2 0)
      (st2, ds1 ++ dsElev ++ dsNot)
  else (st, [])

/-- `Handler<Raise>`: `none` models the `rooms.get(..).unwrap()` panic.
A duplicate `(object, owner_id)` is refused with an `already_raised`
error to the sender; otherwise the `raised` message is broadcast and the
object appended. -/
def raiseHandler (st : ServerState) (object : Json) (owner_id : Nat)
    (owner_name room_name : String) : Option (ServerState × List Delivery) :=
  match lookupA st.rooms room_name with
  | none => none
  | some room =>
    let check := room.raised.filter fun e =>
      decide (e.object = object ∧ e.owner_id = owner_id)
    if check.length > 0 then
      some (st, sendErrorUser st room_name "already_raised"
        "Refusing to raise, already raised" owner_id)
    else
      let elevated := (room.is_elevated owner_id).getD false
      let ds := sendAll st room_name (.raisedMsg owner_id owner_name object elevated)
      let rooms := updateRoom (ensureRoom st.rooms room_name) room_name fun r =>
        { r with raised := r.raised ++ [⟨object, owner_id, owner_name⟩] }
      some (⟨st.sessions, rooms⟩, ds)

/-- `Handler<Lower>`: refuse with `not_raised` when no `(object, owner_id)`
match exists, otherwise remove every match (the `Raised` equality) and
broadcast `lower`; `none` models the late `rooms.get(..).unwrap()`. -/
def lowerHandler (st : ServerState) (object : Json) (owner_id : Nat)
    (owner_name room_name : String) : Option (ServerState × List Delivery) :=
  let rooms := ensureRoom st.rooms room_name
  let room := getRoomD rooms room_name
  let st0 : ServerState := ⟨st.sessions, rooms⟩
  let check := room.raised.filter fun e =>
    decide (e.object = object ∧ e.owner_id = owner_id)
  if check.length = 0 then
    some (st0, sendErrorUser st0 room_name "not_raised"
      "Refusing to lower, is not raised" owner_id)
  else
    let rooms2 := updateRoom rooms room_name fun r =>
      { r with raised := r.raised.filter fun e =>
          !(decide (e.object = object ∧ e.owner_id = owner_id)) }
    let st1 : ServerState := ⟨st.sessions, rooms2⟩
    match lookupA rooms2 room_name with
    | none => none
    | some room2 =>
      let elevated := (room2.is_elevated owner_id).getD false
      some (st1, sendAll st1 room_name (.lowerMsg owner_id owner_name object elevated))

/-- `Handler<Instant>`: no permission check, no mutation; `none` models
the `rooms.get(..).unwrap()` panic. -/
def instantHandler (st : ServerState) (object : Json) (owner_id : Nat)
    (owner_name room_name : String) : Option (ServerState × List Delivery) :=
  match lookupA st.rooms room_name with
  | none => none
  | some room =>
    let elevated := (room.is_elevated owner_id).getD false
    some (st, sendAll st room_name (.instantMsg owner_id owner_name object elevated))

/-- `Handler<Poll>` (poll creation): requires the sender elevated and the
title fresh, then appends the poll and broadcasts `poll`. -/
def pollCreate (st : ServerState) (title : String) (owner_id : Nat)
    (owner_name room_name : String) : ServerState × List Delivery :=
  let rooms := ensureRoom st.rooms room_name
  let room := getRoomD rooms room_name
  let st0 : ServerState := ⟨st.sessions, rooms⟩
  let userElev := room.connected.filter fun e =>
    decide (e.1 = owner_id ∧ e.2.name = owner_name ∧ e.2.elevated = true)
  if userElev.length = 0 then
    (st0, sendErrorUser st0 room_name "no_permission"
      "You do not have permission to create polls (because you\x27re not elevated)" owner_id)
  else
    let pexists := room.polls.filter fun p => decide (p.title = title)
    if pexists.length > 0 then
      (st0, sendErrorUser st0 room_name "poll_already_exists"
        "A poll with that title already exists" owner_id)
    else
      let rooms2 := updateRoom rooms room_name fun r =>
        { r with polls := r.polls ++ [⟨title, owner_id, owner_name, room_name, [], [], false⟩] }
      let st1 : ServerState := ⟨st.sessions, rooms2⟩
      (st1, sendAll st1 room_name (.pollMsg title))

/-- `iter().position(pred)`. -/
def findIdxA {α : Type} (p : α → Bool) : List α → Option Nat
  | [] => none
  | a :: t => if p a then some 0 else (findIdxA p t).map (· + 1)

/-- `Handler<PollOption>`: checks, in order, sender elevation, poll
existence, poll not closed, option title fresh; then appends the option
and broadcasts `polloption`.  `none` models the `position().unwrap()`. -/
def pollOptionAdd (st : ServerState) (poll_title title : String) (owner_id : Nat)
    (owner_name room_name : String) : Option (ServerState × List Delivery) :=
  let rooms := ensureRoom st.rooms room_name
  let room := getRoomD rooms room_name
  let st0 : ServerState := ⟨st.sessions, rooms⟩
  let userElev := room.connected.filter fun e =>
    decide (e.1 = owner_id ∧ e.2.name = owner_name ∧ e.2.elevated = true)
  if userElev.length = 0 then
    some (st0, sendErrorUser st0 room_name "no_permission"
      "You do not have permission to add poll options (because you\x27re not elevated)" owner_id)
  else
    let pexists := room.polls.filter fun p => decide (p.title = poll_title)
    if pexists.length = 0 then
      some (st0, sendErrorUser st0 room_name "poll_does_not_exist"
        "A poll with that title doesn\x27t exist" owner_id)
    else
      match findIdxA (fun p => decide (p.title = poll_title)) room.polls with
      | none => none
      | some idx =>
        match room.polls.get? idx with
        | none => none
        | some poll =>
          if poll.closed then
            some (st0, sendErrorUser st0 room_name "poll_closed"
              "Sorry, the poll is already closed" owner_id)
          else
            let oexists := poll.options.filter fun o => decide (o.title = title)
            if oexists.length > 0 then
              some (st0, sendErrorUser st0 room_name "poll_option_already_exists"
                "A poll-option with that title in this poll does already exist" owner_id)
            else
              let poll2 := { poll with
                options := poll.options ++ [⟨title, owner_id, owner_name, room_name, poll_title⟩] }
              let rooms2 := updateRoom rooms room_name fun r =>
                { r with polls := r.polls.set idx poll2 }
              let st1 : ServerState := ⟨st.sessions, rooms2⟩
              some (st1, sendAll st1 room_name (.pollOptionMsg poll.title title))

/-- `Handler<PollVoteHelper>`: checks poll existence, poll open, option
existence; removes a previous vote by the sender when present, inserts
the new vote, and emits, in this order, the `deletevote` pair (real id
to elevated, 0 to non-elevated) when a previous vote existed, then the
`vote` pair (real identity to elevated, zeroed to non-elevated). -/
def voteCast (st : ServerState) (poll_title option_title : String) (owner_id : Nat)
    (owner_name room_name : String) : Option (ServerState × List Delivery) :=
  let rooms := ensureRoom st.rooms room_name
  let room := getRoomD rooms room_name
  let st0 : ServerState := ⟨st.sessions, rooms⟩
  let pexists := room.polls.filter fun p => decide (p.title = poll_title)
  if pexists.length = 0 then
    some (st0, sendErrorUser st0 room_name "poll_does_not_exist"
      "A poll with that title doesn\x27t exist" owner_id)
  else
    match findIdxA (fun p => decide (p.title = poll_title)) room.polls with
    | none => none
    | some idx =>
      match room.polls.get? idx with
      | none => none
      | some poll =>
        if poll.closed then
          some (st0, sendErrorUser st0 room_name "poll_closed"
            "Sorry, the poll is already closed" owner_id)
        else
          let oexists := poll.options.filter fun o => decide (o.title = option_title)
          if oexists.length = 0 then
            some (st0, sendErrorUser st0 room_name "poll_option_does_not_exist"
              "A poll-option with that title in this poll doesn\x27t exist" owner_id)
          else
            let prev := lookupA poll.votes owner_id
            let votes2 := insertA (removeA poll.votes owner_id) owner_id option_title
            let rooms2 := updateRoom rooms room_name fun r =>
              { r with polls := r.polls.set idx { poll with votes := votes2 } }
            let st1 : ServerState := ⟨st.sessions, rooms2⟩
            let dsDel := match prev with
              | none => []
              | some prevTitle =>
                  sendElevated st1 room_name (.deleteVoteMsg poll.title prevTitle owner_id)
                  ++ sendNotElevated st1 room_name (.deleteVoteMsg poll.title prevTitle 0)
            let dsVote :=
              sendElevated st1 room_name (.voteMsg poll.title option_title owner_name owner_id)
              ++ sendNotElevated st1 room_name (.voteMsg poll.title option_title "" 0)
            some (st1, dsDel ++ dsVote)

/-- `Handler<PollCloseHelper>`: checks sender elevation, poll existence,
poll not already closed; then sets `closed` and broadcasts `closepoll`. -/
def pollCloseHandler (st : ServerState) (poll_title : String) (sender_id : Nat)
    (sender_name room_name : String) : Option (ServerState × List Delivery) :=
  let rooms := ensureRoom st.rooms room_name
  let room := getRoomD rooms room_name
  let st0 : ServerState := ⟨st.sessions, rooms⟩
  let userElev := room.connected.filter fun e =>
    decide (e.1 = sender_id ∧ e.2.name = sender_name ∧ e.2.elevated = true)
  if userElev.length = 0 then
    some (st0, sendErrorUser st0 room_name "no_permission"
      "You do not have permission to close polls (because you\x27re not elevated)" sender_id)
  else
    let pexists := room.polls.filter fun p => decide (p.title = poll_title)
    if pexists.length = 0 then
      some (st0, sendErrorUser st0 room_name "poll_does_not_exist"
        "A poll with that title doesn\x27t exist" sender_id)
    else
      match findIdxA (fun p => decide (p.title = poll_title)) room.polls with
      | none => none
      | some idx =>
        match room.polls.get? idx with
        | none => none
        | some poll =>
          if poll.closed then
            some (st0, sendErrorUser st0 room_name "poll_closed"
              "Sorry, the poll is already closed" sender_id)
          else
            let rooms2 := updateRoom rooms room_name fun r =>
              { r with polls := r.polls.set idx { poll with closed := true } }
            let st1 : ServerState := ⟨st.sessions, rooms2⟩
            some (st1, sendAll st1 room_name (.closePollMsg poll.title))

/-- The vote replay of `process_priviliges` for the votes of one open
poll: per vote, a `deletevote` then a `vote` to the target only, the
`deletevote` identity matching what the target saw under its old role and
the `vote` identity matching its new role.  `none` models the
`connected.get(..).unwrap()` panic. -/
def replayPollVotes (st : ServerState) (room_name : String) (user_id : Nat)
    (elevated : Bool) (connected : List (Nat × User)) (poll_title : String) :
    List (Nat × String) → Option (List Delivery)
  | [] => some []
  | (userid, option_title) :: rest =>
    match lookupA connected userid with
    | none => none
    | some user =>
      let pair :=
        if elevated then
          sendUser st room_name (.deleteVoteMsg poll_title option_title 0) user_id
          ++ sendUser st room_name (.voteMsg poll_title option_title user.name userid) user_id
        else
          sendUser st room_name (.deleteVoteMsg poll_title option_title userid) user_id
          ++ sendUser st room_name (.voteMsg poll_title option_title "" 0) user_id
      match replayPollVotes st room_name user_id elevated connected poll_title rest with
      | none => none
      | some ds => some (pair ++ ds)

/-- The replay loop of `process_priviliges` over the polls of the room;
closed polls are skipped. -/
def replayPolls (st : ServerState) (room_name : String) (user_id : Nat)
    (elevated : Bool) (connected : List (Nat × User)) :
    List Poll → Option (List Delivery)
  | [] => some []
  | p :: rest =>
    let cur := if p.closed then some []
      else replayPollVotes st room_name user_id elevated connected p.title p.votes
    match cur, replayPolls st room_name user_id elevated connected rest with
    | some a, some b => some (a ++ b)
    | _, _ => none

/-- `WebSocketServer::process_priviliges`: succeeds (first component
`true`) iff the room exists, the requester is connected and elevated, the
target is connected, and the target flag actually changes; on success the
flag is set and the open-poll votes are replayed to the target.  The
outer `none` models the replay panic; an `Err` of the Rust `Result` is
`some (false, ..)` with the state unchanged. -/
def processPriviliges (st : ServerState) (room_name : String)
    (requester_id user_id : Nat) (elevated : Bool) :
    Option (Bool × ServerState × List Delivery) :=
  match lookupA st.rooms room_name with
  | none => some (false, st, [])
  | some room =>
    match room.is_elevated requester_id, room.is_elevated user_id with
    | some reqE, some usrE =>
      if reqE = true ∧ usrE ≠ elevated then
        let room2 := room.set_elevated user_id elevated
        let rooms2 := updateRoom st.rooms room_name fun _ => room2
        let st1 : ServerState := ⟨st.sessions, rooms2⟩
        match replayPolls st1 room_name user_id elevated room2.connected room2.polls with
        | none => none
        | some ds => some (true, st1, ds)
      else some (false, st, [])
    | _, _ => some (false, st, [])

/-- `Handler<Elevate>`: on success of `process_priviliges`, broadcast
`elevated`; on failure do nothing. -/
def elevateHandler (st : ServerState) (target requester : Nat) (room_name : String) :
    Option (ServerState × List Delivery) :=
  match processPriviliges st room_name requester target true with
  | none => none
  | some (false, st1, ds) => some (st1, ds)
  | some (true, st1, ds) =>
      some (st1, ds ++ sendAll st1 room_name (.elevatedMsg target true))

/-- `Handler<Recede>`: on success of `process_priviliges`, broadcast
`receded`; on failure do nothing. -/
def recedeHandler (st : ServerState) (target requester : Nat) (room_name : String) :
    Option (ServerState × List Delivery) :=
  match processPriviliges st room_name requester target false with
  | none => none
  | some (false, st1, ds) => some (st1, ds)
  | some (true, st1, ds) =>
      some (st1, ds ++ sendAll st1 room_name (.recededMsg target false))

/-- The typed commands a session posts to the coordinator, one per
handler. -/
inductive Cmd where
  | joinCmd (user_id : Nat) (user_name room_name : String)
  | disconnectCmd (user_id : Nat)
  | raiseCmd (object : Json) (owner_id : Nat) (owner_name room_name : String)
  | lowerCmd (object : Json) (owner_id : Nat) (owner_name room_name : String)
  | instantCmd (object : Json) (owner_id : Nat) (owner_name room_name : String)
  | pollCmd (title : String) (owner_id : Nat) (owner_name room_name : String)
  | pollOptionCmd (poll_title title : String) (owner_id : Nat) (owner_name room_name : String)
  | voteCmd (poll_title option_title : String) (owner_id : Nat) (owner_name room_name : String)
  | pollCloseCmd (poll_title : String) (sender_id : Nat) (sender_name room_name : String)
  | elevateCmd (object requester_id : Nat) (room_name : String)
  | recedeCmd (object requester_id : Nat) (room_name : String)
deriving DecidableEq

/-- One coordinator dispatch: `some` is normal completion with the new
state and the deliveries, `none` is a panic of the handler. -/
def step (st : ServerState) : Cmd → Option (ServerState × List Delivery)
  | .joinCmd uid un rn => some (join st uid un rn)
  | .disconnectCmd uid => some (disconnect st uid)
  | .raiseCmd o uid un rn => raiseHandler st o uid un rn
  | .lowerCmd o uid un rn => lowerHandler st o uid un rn
  | .instantCmd o uid un rn => instantHandler st o uid un rn
  | .pollCmd t uid un rn => some (pollCreate st t uid un rn)
  | .pollOptionCmd pt t uid un rn => pollOptionAdd st pt t uid un rn
  | .voteCmd pt ot uid un rn => voteCast st pt ot uid un rn
  | .pollCloseCmd pt uid un rn => pollCloseHandler st pt uid un rn
  | .elevateCmd tgt req rn => elevateHandler st tgt req rn
  | .recedeCmd tgt req rn => recedeHandler st tgt req rn

/-- The sending session has joined the room it names: the room exists and
the session id is among its connected users. -/
def senderJoined (st : ServerState) (uid : Nat) (rn : String) : Prop :=
  ∃ room, lookupA st.rooms rn = some room ∧ containsA room.connected uid = true

/-- A command arising from a session that has joined (every command except
`Join` and `Disconnect` is tagged with the id and room of a live, joined
session). -/
def WF (st : ServerState) : Cmd → Prop
  | .joinCmd _ _ _ => True
  | .disconnectCmd _ => True
  | .raiseCmd _ uid _ rn => senderJoined st uid rn
  | .lowerCmd _ uid _ rn => senderJoined st uid rn
  | .instantCmd _ uid _ rn => senderJoined st uid rn
  | .pollCmd _ uid _ rn => senderJoined st uid rn
  | .pollOptionCmd _ _ uid _ rn => senderJoined st uid rn
  | .voteCmd _ _ uid _ rn => senderJoined st uid rn
  | .pollCloseCmd _ uid _ rn => senderJoined st uid rn
  | .elevateCmd _ req rn => senderJoined st req rn
  | .recedeCmd _ req rn => senderJoined st req rn

/-- Invariant I5 restricted to open polls: every voter of an open poll is
a connected member of its room.  (Closed polls keep the votes of
disconnected users by design, and no handler looks their voters up.) -/
def RoomInv (r : Room) : Prop :=
  ∀ p ∈ r.polls, p.closed = false → ∀ v ∈ p.votes, containsA r.connected v.1 = true

/-- The coordinator invariant: the room names are unique (they are
`HashMap` keys) and every room satisfies `RoomInv`. -/
def Inv (st : ServerState) : Prop :=
  (st.rooms.map Prod.fst).Nodup ∧ ∀ e ∈ st.rooms, RoomInv e.2

/-- States reachable from the fresh coordinator by well-formed commands. -/
inductive Reachable : ServerState → Prop where
  | init : Reachable initialState
  | next {s : ServerState} {c : Cmd} {s' : ServerState} {ds : List Delivery} :
      Reachable s → WF s c → step s c = some (s', ds) → Reachable s'

/-- Decimal digit characters of a natural number, most significant first:
the serialization `serde_json` uses for unsigned integer numbers. -/
def natDecChars (n : Nat) : List Char :=
  if _h : n < 10 then [Nat.digitChar n]
  else natDecChars (n / 10) ++ [Nat.digitChar (n % 10)]
decreasing_by exact Nat.div_lt_self (by omega) (by omega)

mutual
/-- `serde_json::Value::to_string()`: the JSON serialization of a value.
String escaping is not modelled (no claim depends on the interior of a
serialized string, only on its leading quote). -/
def Json.render : Json → String
  | .null => "null"
  | .bool true => "true"
  | .bool false => "false"
  | .num n =>
      if n < 0 then "-" ++ String.mk (natDecChars n.natAbs)
      else String.mk (natDecChars n.natAbs)
  | .str s => "\x22" ++ s ++ "\x22"
  | .arr es => "[" ++ JsonList.render es ++ "]"
  | .obj fs => "\x7b" ++ JsonFields.render fs ++ "\x7d"
def JsonList.render : JsonList → String
  | .nil => ""
  | .cons h .nil => Json.render h
  | .cons h t => Json.render h ++ "," ++ JsonList.render t
def JsonFields.render : JsonFields → String
  | .nil => ""
  | .cons k v .nil => "\x22" ++ k ++ "\x22:" ++ Json.render v
  | .cons k v t => "\x22" ++ k ++ "\x22:" ++ Json.render v ++ "," ++ JsonFields.render t
end

/-- `usize::from_str`: an optional leading plus sign, then one or more
ASCII digits, with the value below `2^64` (64-bit target); anything else
is an error. -/
def parseUsize (s : String) : Option Nat :=
  let cs0 := s.toList
  let cs := if cs0.head? = some '+' then cs0.tail else cs0
  if cs = [] then none
  else if cs.all (fun c => c.isDigit) then
    let n := cs.foldl (fun acc c => acc * 10 + (c.toNat - 48)) 0
    if n < 2 ^ 64 then some n else none
  else none

/-- `Value::as_str()`. -/
def Json.asStr : Json → Option String
  | .str s => some s
  | _ => none

/-- The result of classifying one inbound text frame whose JSON parse
succeeded: a typed command, a silent drop, or a panic (`HashMap`
indexing with a missing key panics in Rust). -/
inductive FrameOutcome where
  | dropped : FrameOutcome
  | command (c : Cmd) : FrameOutcome
  | panicked : FrameOutcome
deriving DecidableEq

/-- The inbound classification of `main.rs` (the `ws::Message::Text` arm):
the frame, already parsed into a `HashMap<String, Value>`, is turned into
a command of the coordinator.  Field accesses use `HashMap` indexing,
which panics when the key is missing; a `type` value that is not a string
is replaced by `"NOT PARSEABLE"` and falls through to the silent drop. -/
def classifyFrame (id : Nat) (name room : String) (m : List (String × Json)) :
    FrameOutcome :=
  match lookupA m "type" with
  | none => .panicked
  | some tv =>
    let t := tv.asStr.getD "NOT PARSEABLE"
    if t = "raise" then
      match lookupA m "raiseobject" with
      | none => .panicked
      | some ov =>
        match ov.asStr with
        | some s => .command (.raiseCmd (Json.str s) id name room)
        | none => .dropped
    else if t = "lower" then
      match lookupA m "lowerobject" with
      | none => .panicked
      | some ov =>
        match ov.asStr with
        | some s => .command (.lowerCmd (Json.str s) id name room)
        | none => .dropped
    else if t = "instant" then
      if containsA m "instantobject" then
        match lookupA m "instantobject" with
        | none => .panicked
        | some v => .command (.instantCmd v id name room)
      else .dropped
    else if t = "poll" then
      match lookupA m "pollobject" with
      | none => .panicked
      | some ov =>
        match ov.asStr with
        | some s => .command (.pollCmd s id name room)
        | none => .dropped
    else if t = "polloption" then
      match lookupA m "polloptionobject" with
      | none => .panicked
      | some ov =>
        match lookupA m "pollobject" with
        | none => .panicked
        | some pv =>
          match ov.asStr, pv.asStr with
          | some o, some p => .command (.pollOptionCmd p o id name room)
          | _, _ => .dropped
    else if t = "vote" then
      match lookupA m "polloptionobject" with
      | none => .panicked
      | some ov =>
        match lookupA m "pollobject" with
        | none => .panicked
        | some pv =>
          match ov.asStr, pv.asStr with
          | some o, some p => .command (.voteCmd p o id name room)
          | _, _ => .dropped
    else if t = "closepoll" then
      match lookupA m "pollobject" with
      | none => .panicked
      | some ov =>
        match ov.asStr with
        | some s => .command (.pollCloseCmd s id name room)
        | none => .dropped
    else if t = "elevate" then
      match lookupA m "object" with
      | none => .panicked
      | some v =>
        match parseUsize v.render with
        | some n => .command (.elevateCmd n id room)
        | none => .dropped
    else if t = "recede" then
      match lookupA m "object" with
      | none => .panicked
      | some v =>
        match parseUsize v.render with
        | some n => .command (.recedeCmd n id room)
        | none => .dropped
    else .dropped

/-- Width of `usize` on the 64-bit target: `AtomicUsize::fetch_add` wraps
at this modulus. -/
def usizeMod : Nat := 2 ^ 64

/-- `get_id`: `COUNTER.fetch_add(1, Relaxed)` returns the old counter
value as the issued id and stores the wrapped increment. -/
def getId (counter : Nat) : Nat × Nat := (counter, (counter + 1) % usizeMod)

/-- The counter value before the k-th `get_id` call (counting from 0);
the static counter starts at 1. -/
def idCounterAt : Nat → Nat
  | 0 => 1
  | k + 1 => (getId (idCounterAt k)).2

/-- The session id issued by the k-th `get_id` call. -/
def nthIssuedId (k : Nat) : Nat := (getId (idCounterAt k)).1

/-- The poll-replay segment a joiner receives: per open poll, in order,
the `poll` message, one `polloption` per option, one redacted `vote` per
recorded vote; closed polls are skipped. -/
def joinPollReplay (uid : Nat) (polls : List Poll) : List Delivery :=
  polls.flatMap fun poll =>
    if poll.closed = true then [] else
      (uid, OutMsg.pollMsg poll.title)
        :: ((poll.options.map fun o => (uid, OutMsg.pollOptionMsg poll.title o.title))
          ++ poll.votes.map fun v => (uid, OutMsg.voteMsg poll.title v.2 "" 0))

/-- The display name the privilege replay reads through the connected
lookup (total on connected voters; the default is never read there). -/
def voterName (connected : List (Nat × User)) (uid : Nat) : String :=
  ((lookupA connected uid).getD ⟨"", false⟩).name

/-- The deliveries of the `process_priviliges` replay: per open poll, per
recorded vote, a `deletevote` then a `vote` to the target only; on
elevation the `deletevote` is zeroed and the `vote` carries the real
identity, on recession the `deletevote` carries the real userid and the
`vote` is zeroed. -/
def privilegeReplay (tgt : Nat) (elevated : Bool) (connected : List (Nat × User))
    (polls : List Poll) : List Delivery :=
  polls.flatMap fun p =>
    if p.closed then [] else
      p.votes.flatMap fun v =>
        if elevated then
          [(tgt, OutMsg.deleteVoteMsg p.title v.2 0),
           (tgt, OutMsg.voteMsg p.title v.2 (voterName connected v.1) v.1)]
        else
          [(tgt, OutMsg.deleteVoteMsg p.title v.2 v.1),
           (tgt, OutMsg.voteMsg p.title v.2 "" 0)]

/-- Two consecutive `Raise` commands for the same key from the same
sender, with the deliveries of both concatenated. -/
def twoRaises (st : ServerState) (o : Json) (uid : Nat) (un rn : String) :
    Option (ServerState × List Delivery) :=
  match raiseHandler st o uid un rn with
  | none => none
  | some (st1, ds1) =>
    match raiseHandler st1 o uid un rn with
    | none => none
    | some (st2, ds2) => some (st2, ds1 ++ ds2)

/-- Coordinator state after user 1 joined room `R` (reachable). -/
def exSt1 : ServerState := (join initialState 1 "a" "R").1

/-- State after user 1 joined and raised the string object `x`
(reachable). -/
def exStRaised : ServerState :=
  ((raiseHandler exSt1 (Json.str "x") 1 "a" "R").getD (exSt1, [])).1

/-- State after users 1 and 2 joined, user 1 created poll `p` with option
`x`, and user 2 voted for `x` (reachable). -/
def exStVoted : ServerState :=
  let s2 := (join exSt1 2 "b" "R").1
  let s3 := (pollCreate s2 "p" 1 "a" "R").1
  let s4 := ((pollOptionAdd s3 "p" "x" 1 "a" "R").getD (s3, [])).1
  ((voteCast s4 "p" "x" 2 "b" "R").getD (s4, [])).1

/-- State after user 1 joined room `R`, created poll `p`, and
disconnected: the room keeps the open poll while `connected` is empty
(reachable). -/
def exStEmptyWithPoll : ServerState :=
  (disconnect (pollCreate exSt1 "p" 1 "a" "R").1 1).1

section Lemmas

variable {κ α : Type} [DecidableEq κ]

theorem lookupA_insertA_self (l : List (κ × α)) (k : κ) (v : α) :
    lookupA (insertA l k v) k = some v := by
  induction l with
  | nil => simp [insertA, lookupA]
  | cons e t ih =>
    obtain ⟨k0, v0⟩ := e
    by_cases h : k0 = k
    · subst h
      simp [insertA, lookupA]
    · simp [insertA, h, lookupA, ih]

theorem lookupA_insertA_ne (l : List (κ × α)) {k k' : κ} (v : α) (h : k' ≠ k) :
    lookupA (insertA l k v) k' = lookupA l k' := by
  induction l with
  | nil => simp [insertA, lookupA, Ne.symm h]
  | cons e t ih =>
    obtain ⟨k0, v0⟩ := e
    by_cases he : k0 = k
    · subst he
      simp [insertA, lookupA, Ne.symm h]
    · simp [insertA, lookupA, he, ih]

theorem lookupA_removeA_ne (l : List (κ × α)) {k k' : κ} (h : k' ≠ k) :
    lookupA (removeA l k) k' = lookupA l k' := by
  induction l with
  | nil => simp [removeA]
  | cons e t ih =>
    obtain ⟨k0, v0⟩ := e
    by_cases he : k0 = k
    · subst he
      simp [removeA, lookupA, Ne.symm h]
    · simp [removeA, lookupA, he, ih]

theorem containsA_insertA (l : List (κ × α)) (k k' : κ) (v : α) :
    containsA (insertA l k v) k' = (decide (k' = k) || containsA l k') := by
  by_cases h : k' = k
  · subst h
    simp [containsA, lookupA_insertA_self]
  · simp [containsA, lookupA_insertA_ne l v h, h]

theorem containsA_removeA_ne (l : List (κ × α)) {k k' : κ} (h : k' ≠ k) :
    containsA (removeA l k) k' = containsA l k' := by
  simp [containsA, lookupA_removeA_ne l h]

theorem mem_insertA {l : List (κ × α)} {k : κ} {v : α} {e : κ × α}
    (h : e ∈ insertA l k v) : e ∈ l ∨ e = (k, v) := by
  induction l with
  | nil => simpa [insertA] using h
  | cons e0 t ih =>
    obtain ⟨k0, v0⟩ := e0
    by_cases he : k0 = k
    · subst he
      simp only [insertA, if_pos rfl] at h
      rcases List.mem_cons.mp h with h | h
      · right; exact h
      · left; exact List.mem_cons_of_mem _ h
    · simp only [insertA, if_neg he] at h
      rcases List.mem_cons.mp h with h | h
      · left; exact h ▸ List.mem_cons_self _ _
      · rcases ih h with h | h
        · left; exact List.mem_cons_of_mem _ h
        · right; exact h

theorem mem_removeA {l : List (κ × α)} {k : κ} {e : κ × α}
    (h : e ∈ removeA l k) : e ∈ l := by
  induction l with
  | nil => simp [removeA] at h
  | cons e0 t ih =>
    obtain ⟨k0, v0⟩ := e0
    by_cases he : k0 = k
    · subst he
      simp only [removeA, if_pos rfl] at h
      exact List.mem_cons_of_mem _ h
    · simp only [removeA, if_neg he] at h
      rcases List.mem_cons.mp h with h | h
      · exact h ▸ List.mem_cons_self _ _
      · exact List.mem_cons_of_mem _ (ih h)

theorem lookupA_mem {l : List (κ × α)} {k : κ} {v : α}
    (h : lookupA l k = some v) : (k, v) ∈ l := by
  induction l with
  | nil => simp [lookupA] at h
  | cons e t ih =>
    obtain ⟨k0, v0⟩ := e
    by_cases he : k0 = k
    · subst he
      simp only [lookupA, if_pos rfl] at h
      cases h
      exact List.mem_cons_self _ _
    · simp only [lookupA, if_neg he] at h
      exact List.mem_cons_of_mem _ (ih h)

theorem containsA_of_mem {l : List (κ × α)} {k : κ} {v : α}
    (h : (k, v) ∈ l) : containsA l k = true := by
  induction l with
  | nil => simp at h
  | cons e t ih =>
    obtain ⟨k0, v0⟩ := e
    rcases List.mem_cons.mp h with h | h
    · cases h
      simp [containsA, lookupA]
    · by_cases he : k0 = k
      · simp [containsA, lookupA, he]
      · simpa [containsA, lookupA, he] using ih h

theorem lookupA_updateRoom_self (rooms : List (String × Room)) (n : String)
    (f : Room → Room) :
    lookupA (updateRoom rooms n f) n = (lookupA rooms n).map f := by
  induction rooms with
  | nil => simp [updateRoom, lookupA]
  | cons e t ih =>
    obtain ⟨k0, r0⟩ := e
    simp only [updateRoom]
    by_cases he : k0 = n
    · subst he
      rw [if_pos rfl]
      simp [lookupA]
    · rw [if_neg he]
      simp [lookupA, he, ih]

theorem lookupA_updateRoom_ne (rooms : List (String × Room)) {n m : String}
    (f : Room → Room) (h : m ≠ n) :
    lookupA (updateRoom rooms n f) m = lookupA rooms m := by
  induction rooms with
  | nil => simp [updateRoom, lookupA]
  | cons e t ih =>
    obtain ⟨k0, r0⟩ := e
    simp only [updateRoom]
    by_cases he : k0 = n
    · subst he
      rw [if_pos rfl]
      simp [lookupA, Ne.symm h, ih]
    · rw [if_neg he]
      simp [lookupA, ih]

theorem lookupA_ensureRoom_self (rooms : List (String × Room)) (n : String) :
    lookupA (ensureRoom rooms n) n = some (getRoomD rooms n) := by
  unfold ensureRoom getRoomD containsA
  cases h : lookupA rooms n with
  | none => simp [h, lookupA_insertA_self]
  | some r => simp [h]

theorem getRoomD_ensureRoom (rooms : List (String × Room)) (n : String) :
    getRoomD (ensureRoom rooms n) n = getRoomD rooms n := by
  simp [getRoomD, lookupA_ensureRoom_self]

theorem mem_ensureRoom {rooms : List (String × Room)} {n : String} {e : String × Room}
    (h : e ∈ ensureRoom rooms n) : e ∈ rooms ∨ e = (n, Room.default) := by
  unfold ensureRoom at h
  by_cases hc : containsA rooms n
  · left; simpa [hc] using h
  · simp only [hc, if_neg] at h
    exact mem_insertA (by simpa using h)

theorem mem_updateRoom {rooms : List (String × Room)} {n : String} {f : Room → Room}
    {e : String × Room} (h : e ∈ updateRoom rooms n f) :
    e ∈ rooms ∨ ∃ r, (n, r) ∈ rooms ∧ e = (n, f r) := by
  induction rooms with
  | nil => simp [updateRoom] at h
  | cons e0 t ih =>
    obtain ⟨k0, r0⟩ := e0
    by_cases he : k0 = n
    · subst he
      simp only [updateRoom, if_pos rfl] at h
      rcases List.mem_cons.mp h with h | h
      · right; exact ⟨r0, List.mem_cons_self _ _, h⟩
      · rcases ih h with h | ⟨r, hr, he2⟩
        · left; exact List.mem_cons_of_mem _ h
        · right; exact ⟨r, List.mem_cons_of_mem _ hr, he2⟩
    · simp only [updateRoom, if_neg he] at h
      rcases List.mem_cons.mp h with h | h
      · left; exact h ▸ List.mem_cons_self _ _
      · rcases ih h with h | ⟨r, hr, he2⟩
        · left; exact List.mem_cons_of_mem _ h
        · right; exact ⟨r, List.mem_cons_of_mem _ hr, he2⟩

theorem findIdxA_isSome {p : α → Bool} {l : List α}
    (h : ¬ (l.filter p).length = 0) : (findIdxA p l).isSome := by
  induction l with
  | nil => simp [List.filter] at h
  | cons a t ih =>
    by_cases hp : p a
    · simp [findIdxA, hp]
    · simp only [findIdxA, if_neg hp]
      have : ¬ (t.filter p).length = 0 := by
        simpa [List.filter_cons, hp] using h
      rcases Option.isSome_iff_exists.mp (ih this) with ⟨i, hi⟩
      simp [hi]

theorem findIdxA_get {p : α → Bool} {l : List α} {i : Nat}
    (h : findIdxA p l = some i) : ∃ x, l.get? i = some x ∧ p x = true := by
  induction l generalizing i with
  | nil => simp [findIdxA] at h
  | cons a t ih =>
    by_cases hp : p a
    · simp only [findIdxA, if_pos hp] at h
      cases h
      exact ⟨a, rfl, hp⟩
    · simp only [findIdxA, if_neg hp] at h
      cases hfind : findIdxA p t with
      | none => simp [hfind] at h
      | some j =>
        simp only [hfind, Option.map_some] at h
        cases h
        rcases ih hfind with ⟨x, hx, hpx⟩
        exact ⟨x, by simpa using hx, hpx⟩

theorem sendUser_self {st : ServerState} {rn : String} {r : Room} {uid : Nat}
    (h1 : lookupA st.rooms rn = some r) (h2 : containsA r.connected uid = true)
    (h3 : uid ∈ st.sessions) (m : OutMsg) :
    sendUser st rn m uid = [(uid, m)] := by
  simp [sendUser, h1, h2, h3]

theorem digitChar_isDigit {d : Nat} (h : d < 10) : (Nat.digitChar d).isDigit = true := by
  interval_cases d <;> decide

theorem digitChar_toNat {d : Nat} (h : d < 10) : (Nat.digitChar d).toNat = 48 + d := by
  interval_cases d <;> decide

theorem natDecChars_ne_nil (n : Nat) : natDecChars n ≠ [] := by
  unfold natDecChars
  split <;> simp

theorem natDecChars_all_digit (n : Nat) : ∀ c ∈ natDecChars n, c.isDigit = true := by
  induction n using Nat.strong_induction_on with
  | _ n ih =>
    unfold natDecChars
    split
    · next h =>
      intro c hc
      simp only [List.mem_singleton] at hc
      subst hc
      exact digitChar_isDigit h
    · next h =>
      intro c hc
      rcases List.mem_append.mp hc with hc | hc
      · exact ih (n / 10) (Nat.div_lt_self (by omega) (by omega)) c hc
      · simp only [List.mem_singleton] at hc
        subst hc
        exact digitChar_isDigit (Nat.mod_lt _ (by omega))

theorem foldl_natDecChars (n : Nat) : ∀ a : Nat,
    (natDecChars n).foldl (fun acc c => acc * 10 + (c.toNat - 48)) a
      = a * 10 ^ (natDecChars n).length + n := by
  induction n using Nat.strong_induction_on with
  | _ n ih =>
    intro a
    unfold natDecChars
    split
    · next h =>
      simp [List.foldl, digitChar_toNat h]
    · next h =>
      rw [List.foldl_append, ih (n / 10) (Nat.div_lt_self (by omega) (by omega)) a]
      simp only [List.foldl, digitChar_toNat (Nat.mod_lt n (by omega)), List.length_append,
        List.length_singleton]
      have hsplit : n % 10 + 10 * (n / 10) = n := Nat.mod_add_div n 10
      rw [pow_succ]
      set K := a * 10 ^ (natDecChars (n / 10)).length with hK
      have : a * (10 ^ (natDecChars (n / 10)).length * 10) = K * 10 := by
        rw [hK]; ring
      rw [this]
      omega

theorem parseUsize_mk_natDecChars (n : Nat) :
    parseUsize (String.mk (natDecChars n)) = if n < 2 ^ 64 then some n else none := by
  have htl : (String.mk (natDecChars n)).toList = natDecChars n := rfl
  have hne := natDecChars_ne_nil n
  have hdig := natDecChars_all_digit n
  have hhead : (natDecChars n).head? ≠ some '+' := by
    cases hcs : natDecChars n with
    | nil => exact absurd hcs hne
    | cons c rest =>
      have : c.isDigit = true := hdig c (hcs ▸ List.mem_cons_self c rest)
      simp only [List.head?]
      intro hc
      rw [Option.some_inj] at hc
      subst hc
      simp at this
  simp only [parseUsize]
  rw [htl, if_neg hhead, if_neg hne, if_pos (List.all_eq_true.mpr (fun c hc => hdig c hc))]
  rw [foldl_natDecChars]
  simp

theorem not_mem_keys_of_not_contains {l : List (κ × α)} {k : κ}
    (h : containsA l k = false) : k ∉ l.map Prod.fst := by
  intro hk
  rcases List.mem_map.mp hk with ⟨e, he, hek⟩
  obtain ⟨k0, v0⟩ := e
  cases hek
  rw [containsA_of_mem he] at h
  simp at h

theorem keys_insertA_of_not_contains {l : List (κ × α)} {k : κ} (v : α)
    (h : containsA l k = false) :
    (insertA l k v).map Prod.fst = l.map Prod.fst ++ [k] := by
  induction l with
  | nil => simp [insertA]
  | cons e t ih =>
    obtain ⟨k0, v0⟩ := e
    by_cases he : k0 = k
    · subst he
      simp [containsA, lookupA] at h
    · simp only [insertA, if_neg he, List.map_cons, List.cons_append]
      congr 1
      apply ih
      simpa [containsA, lookupA, he] using h

theorem keys_updateRoom (rooms : List (String × Room)) (n : String) (f : Room → Room) :
    (updateRoom rooms n f).map Prod.fst = rooms.map Prod.fst := by
  induction rooms with
  | nil => rfl
  | cons e t ih =>
    obtain ⟨k0, r0⟩ := e
    by_cases he : k0 = n
    · subst he
      simp [updateRoom, ih]
    · simp [updateRoom, he, ih]

theorem keys_ensureRoom_nodup {rooms : List (String × Room)} (n : String)
    (h : (rooms.map Prod.fst).Nodup) : ((ensureRoom rooms n).map Prod.fst).Nodup := by
  unfold ensureRoom
  by_cases hc : containsA rooms n = true
  · simpa [hc]
  · rw [if_neg (by simp [hc])]
    rw [keys_insertA_of_not_contains _ (by simpa using hc)]
    have hnot := not_mem_keys_of_not_contains (l := rooms) (k := n) (by simpa using hc)
    simp [List.nodup_append, h, hnot]

theorem lookupA_eq_of_mem_nodup {l : List (κ × α)} {k : κ} {v : α}
    (hnd : (l.map Prod.fst).Nodup) (h : (k, v) ∈ l) : lookupA l k = some v := by
  induction l with
  | nil => simp at h
  | cons e t ih =>
    obtain ⟨k0, v0⟩ := e
    simp only [List.map_cons, List.nodup_cons] at hnd
    rcases List.mem_cons.mp h with h | h
    · cases h
      simp [lookupA]
    · by_cases he : k0 = k
      · subst he
        exact absurd (List.mem_map.mpr ⟨(k0, v), h, rfl⟩) hnd.1
      · simp [lookupA, he, ih hnd.2 h]

theorem roomInv_default : RoomInv Room.default := by
  intro p hp
  simp [Room.default] at hp

theorem roomInv_getRoomD {rooms : List (String × Room)}
    (h : ∀ e ∈ rooms, RoomInv e.2) (n : String) : RoomInv (getRoomD rooms n) := by
  unfold getRoomD
  cases hl : lookupA rooms n with
  | none => simpa using roomInv_default
  | some r =>
    have := h (n, r) (lookupA_mem hl)
    simpa using this

theorem roomInv_set_raised {r : Room} (x : List Raised) (h : RoomInv r) :
    RoomInv { r with raised := x } := by
  intro p hp hop v hv
  exact h p hp hop v hv

theorem roomInv_insert_connected {r : Room} (uid : Nat) (u : User) (h : RoomInv r) :
    RoomInv { r with connected := insertA r.connected uid u } := by
  intro p hp hop v hv
  have hc := h p hp hop v hv
  show containsA (insertA r.connected uid u) v.1 = true
  rw [containsA_insertA]
  simp [hc]

theorem roomInv_append_poll {r : Room} (h : RoomInv r) (np : Poll)
    (hnp : np.votes = []) : RoomInv { r with polls := r.polls ++ [np] } := by
  intro p hp hop v hv
  rcases List.mem_append.mp hp with hp | hp
  · exact h p hp hop v hv
  · simp only [List.mem_singleton] at hp
    subst hp
    rw [hnp] at hv
    simp at hv

theorem updateRoom_cons_pos (k0 : String) (r0 : Room) (t : List (String × Room))
    (f : Room → Room) :
    updateRoom ((k0, r0) :: t) k0 f = (k0, f r0) :: updateRoom t k0 f := by
  simp [updateRoom]

theorem updateRoom_cons_neg {k0 n : String} (h : ¬ k0 = n) (r0 : Room)
    (t : List (String × Room)) (f : Room → Room) :
    updateRoom ((k0, r0) :: t) n f = (k0, r0) :: updateRoom t n f := by
  simp [updateRoom, h]

theorem updateRoom_updateRoom (rooms : List (String × Room)) (n : String)
    (f g : Room → Room) :
    updateRoom (updateRoom rooms n f) n g = updateRoom rooms n (fun r => g (f r)) := by
  induction rooms with
  | nil => rfl
  | cons e t ih =>
    obtain ⟨k0, r0⟩ := e
    by_cases he : k0 = n
    · subst he
      rw [updateRoom_cons_pos, updateRoom_cons_pos, updateRoom_cons_pos, ih]
    · rw [updateRoom_cons_neg he, updateRoom_cons_neg he, updateRoom_cons_neg he, ih]

theorem set_elevated_polls (r : Room) (uid : Nat) (b : Bool) :
    (Room.set_elevated r uid b).polls = r.polls := by
  unfold Room.set_elevated
  cases lookupA r.connected uid <;> rfl

theorem set_elevated_raised (r : Room) (uid : Nat) (b : Bool) :
    (Room.set_elevated r uid b).raised = r.raised := by
  unfold Room.set_elevated
  cases lookupA r.connected uid <;> rfl

theorem set_elevated_contains (r : Room) (uid : Nat) (b : Bool) (x : Nat) :
    containsA (Room.set_elevated r uid b).connected x = containsA r.connected x := by
  unfold Room.set_elevated
  cases hl : lookupA r.connected uid with
  | none => rfl
  | some u =>
    show containsA (insertA r.connected uid _) x = containsA r.connected x
    rw [containsA_insertA]
    by_cases hx : x = uid
    · subst hx
      simp [containsA, hl]
    · simp [hx]

theorem roomInv_set_elevated {r : Room} (uid : Nat) (b : Bool) (h : RoomInv r) :
    RoomInv (Room.set_elevated r uid b) := by
  intro p hp hop v hv
  rw [set_elevated_polls] at hp
  rw [set_elevated_contains]
  exact h p hp hop v hv

theorem replayPollVotes_isSome {st : ServerState} {rn : String} {uid : Nat}
    {elev : Bool} {connected : List (Nat × User)} {pt : String}
    {votes : List (Nat × String)}
    (h : ∀ v ∈ votes, containsA connected v.1 = true) :
    (replayPollVotes st rn uid elev connected pt votes).isSome := by
  induction votes with
  | nil => simp [replayPollVotes]
  | cons v rest ih =>
    obtain ⟨vid, vt⟩ := v
    have hc : containsA connected vid = true := h _ (List.mem_cons_self _ _)
    rw [containsA] at hc
    rcases Option.isSome_iff_exists.mp hc with ⟨u, hu⟩
    have hrest := ih (fun w hw => h w (List.mem_cons_of_mem _ hw))
    rcases Option.isSome_iff_exists.mp hrest with ⟨ds, hds⟩
    simp [replayPollVotes, hu, hds]

theorem replayPolls_isSome {st : ServerState} {rn : String} {uid : Nat}
    {elev : Bool} {connected : List (Nat × User)} {polls : List Poll}
    (h : ∀ p ∈ polls, p.closed = false → ∀ v ∈ p.votes, containsA connected v.1 = true) :
    (replayPolls st rn uid elev connected polls).isSome := by
  induction polls with
  | nil => simp [replayPolls]
  | cons p rest ih =>
    have hrest := ih (fun q hq => h q (List.mem_cons_of_mem _ hq))
    rcases Option.isSome_iff_exists.mp hrest with ⟨ds, hds⟩
    by_cases hc : p.closed = true
    · simp [replayPolls, hc, hds]
    · have hcur := @replayPollVotes_isSome st rn uid elev connected p.title p.votes
        (h p (List.mem_cons_self _ _) (by simpa using hc))
      rcases Option.isSome_iff_exists.mp hcur with ⟨a, ha⟩
      simp [replayPolls, hc, ha, hds]

theorem invRooms_update {rooms : List (String × Room)} {n : String} {f : Room → Room}
    (h : ∀ e ∈ rooms, RoomInv e.2)
    (hf : ∀ r, (n, r) ∈ rooms → RoomInv r → RoomInv (f r)) :
    ∀ e ∈ updateRoom rooms n f, RoomInv e.2 := by
  intro e he
  rcases mem_updateRoom he with he | ⟨r, hr, heq⟩
  · exact h e he
  · subst heq
    exact hf r hr (h (n, r) hr)

theorem invRooms_ensure {rooms : List (String × Room)} (n : String)
    (h : ∀ e ∈ rooms, RoomInv e.2) : ∀ e ∈ ensureRoom rooms n, RoomInv e.2 := by
  intro e he
  rcases mem_ensureRoom he with he | heq
  · exact h e he
  · subst heq
    exact roomInv_default

theorem inv_ensure {st : ServerState} (hinv : Inv st) (ss : List Nat) (rn : String) :
    Inv ⟨ss, ensureRoom st.rooms rn⟩ :=
  ⟨keys_ensureRoom_nodup rn hinv.1, invRooms_ensure rn hinv.2⟩

theorem inv_update {st : ServerState} (hinv : Inv st) (ss : List Nat) (rn : String)
    {f : Room → Room} (hf : ∀ r, RoomInv r → RoomInv (f r)) :
    Inv ⟨ss, updateRoom st.rooms rn f⟩ := by
  constructor
  · show ((updateRoom st.rooms rn f).map Prod.fst).Nodup
    rw [keys_updateRoom]
    exact hinv.1
  · exact invRooms_update hinv.2 (fun r _ hr => hf r hr)

theorem inv_update_ensure {st : ServerState} (hinv : Inv st) (ss : List Nat)
    (rn : String) {f : Room → Room} (hf : ∀ r, RoomInv r → RoomInv (f r)) :
    Inv ⟨ss, updateRoom (ensureRoom st.rooms rn) rn f⟩ :=
  @inv_update ⟨ss, ensureRoom st.rooms rn⟩ (inv_ensure hinv ss rn) ss rn _ hf

theorem inv_update_ensure_room {st : ServerState} (hinv : Inv st) (ss : List Nat)
    (rn : String) {f : Room → Room}
    (hf : RoomInv (getRoomD (ensureRoom st.rooms rn) rn) →
      RoomInv (f (getRoomD (ensureRoom st.rooms rn) rn))) :
    Inv ⟨ss, updateRoom (ensureRoom st.rooms rn) rn f⟩ := by
  constructor
  · show ((updateRoom (ensureRoom st.rooms rn) rn f).map Prod.fst).Nodup
    rw [keys_updateRoom]
    exact keys_ensureRoom_nodup rn hinv.1
  · apply invRooms_update (invRooms_ensure rn hinv.2)
    intro r hmem hr
    have hl := lookupA_eq_of_mem_nodup (keys_ensureRoom_nodup rn hinv.1) hmem
    rw [lookupA_ensureRoom_self] at hl
    have hreq : r = getRoomD (ensureRoom st.rooms rn) rn := by
      rw [getRoomD_ensureRoom]
      injection hl with hl
      exact hl.symm
    subst hreq
    exact hf hr

theorem roomInv_disconnect {r : Room} (uid : Nat) (h : RoomInv r) :
    RoomInv { (Room.remove_user { r with connected := removeA r.connected uid } uid) with
      polls := (Room.remove_user { r with connected := removeA r.connected uid } uid).polls.map
        fun p => if p.closed then p
          else { p with votes := p.votes.filter fun v => decide (v.1 ≠ uid) } } := by
  intro p' hp' hop v hv
  simp only [Room.remove_user, List.mem_map] at hp'
  rcases hp' with ⟨p, hp, heq⟩
  by_cases hc : p.closed = true
  · rw [if_pos hc] at heq
    subst heq
    rw [hc] at hop
    cases hop
  · rw [if_neg hc] at heq
    subst heq
    simp only [List.mem_filter] at hv
    have hvne : v.1 ≠ uid := by simpa using hv.2
    show containsA (removeA r.connected uid) v.1 = true
    rw [containsA_removeA_ne _ hvne]
    exact h p hp (by simpa using hc) v hv.1

theorem raiseHandler_isSome {st : ServerState} {o : Json} {uid : Nat} {un rn : String}
    (h : senderJoined st uid rn) : (raiseHandler st o uid un rn).isSome := by
  rcases h with ⟨room, hlook, _⟩
  simp only [raiseHandler]
  split
  · rename_i heq
    rw [hlook] at heq
    cases heq
  · split <;> simp

theorem lowerHandler_isSome (st : ServerState) (o : Json) (uid : Nat) (un rn : String) :
    (lowerHandler st o uid un rn).isSome := by
  simp only [lowerHandler]
  split
  · simp
  · rw [lookupA_updateRoom_self, lookupA_ensureRoom_self]
    simp

theorem instantHandler_isSome {st : ServerState} {o : Json} {uid : Nat} {un rn : String}
    (h : senderJoined st uid rn) : (instantHandler st o uid un rn).isSome := by
  rcases h with ⟨room, hlook, _⟩
  simp only [instantHandler]
  split
  · rename_i heq
    rw [hlook] at heq
    cases heq
  · simp

theorem pollOptionAdd_isSome (st : ServerState) (pt t : String) (uid : Nat)
    (un rn : String) : (pollOptionAdd st pt t uid un rn).isSome := by
  simp only [pollOptionAdd]
  split
  · simp
  · split
    · simp
    · next hlen =>
      have hidx := findIdxA_isSome (p := fun q : Poll => decide (q.title = pt)) hlen
      split
      · rename_i heq
        rw [heq] at hidx
        simp at hidx
      · rename_i i hi
        rcases findIdxA_get hi with ⟨poll, hpoll, _⟩
        split
        · rename_i heq
          rw [heq] at hpoll
          cases hpoll
        · split
          · simp
          · split <;> simp

theorem voteCast_isSome (st : ServerState) (pt ot : String) (uid : Nat)
    (un rn : String) : (voteCast st pt ot uid un rn).isSome := by
  simp only [voteCast]
  split
  · simp
  · next hlen =>
    have hidx := findIdxA_isSome (p := fun q : Poll => decide (q.title = pt)) hlen
    split
    · rename_i heq
      rw [heq] at hidx
      simp at hidx
    · rename_i i hi
      rcases findIdxA_get hi with ⟨poll, hpoll, _⟩
      split
      · rename_i heq
        rw [heq] at hpoll
        cases hpoll
      · split
        · simp
        · split <;> simp

theorem pollCloseHandler_isSome (st : ServerState) (pt : String) (uid : Nat)
    (un rn : String) : (pollCloseHandler st pt uid un rn).isSome := by
  simp only [pollCloseHandler]
  split
  · simp
  · split
    · simp
    · next hlen =>
      have hidx := findIdxA_isSome (p := fun q : Poll => decide (q.title = pt)) hlen
      split
      · rename_i heq
        rw [heq] at hidx
        simp at hidx
      · rename_i i hi
        rcases findIdxA_get hi with ⟨poll, hpoll, _⟩
        split
        · rename_i heq
          rw [heq] at hpoll
          cases hpoll
        · split <;> simp

theorem processPriviliges_isSome {st : ServerState} (hinv : Inv st)
    (rn : String) (req uid : Nat) (b : Bool) :
    (processPriviliges st rn req uid b).isSome := by
  simp only [processPriviliges]
  split
  · simp
  · rename_i room hlook
    split
    · rename_i reqE usrE hre hue
      split
      · have hroom : RoomInv room := by
          have := hinv.2 (rn, room) (lookupA_mem hlook)
          simpa using this
        have hrep : (replayPolls
            ⟨st.sessions, updateRoom st.rooms rn fun _ => room.set_elevated uid b⟩
            rn uid b (room.set_elevated uid b).connected
            (room.set_elevated uid b).polls).isSome := by
          apply replayPolls_isSome
          intro p hp hop v hv
          rw [set_elevated_polls] at hp
          rw [set_elevated_contains]
          exact hroom p hp hop v hv
        split
        · rename_i heq
          rw [heq] at hrep
          simp at hrep
        · simp
      · simp
    · simp

theorem elevateHandler_isSome {st : ServerState} (hinv : Inv st)
    (tgt req : Nat) (rn : String) : (elevateHandler st tgt req rn).isSome := by
  unfold elevateHandler
  rcases Option.isSome_iff_exists.mp (processPriviliges_isSome hinv rn req tgt true)
    with ⟨res, hres⟩
  rw [hres]
  obtain ⟨ok, st1, ds⟩ := res
  cases ok <;> simp

theorem recedeHandler_isSome {st : ServerState} (hinv : Inv st)
    (tgt req : Nat) (rn : String) : (recedeHandler st tgt req rn).isSome := by
  unfold recedeHandler
  rcases Option.isSome_iff_exists.mp (processPriviliges_isSome hinv rn req tgt false)
    with ⟨res, hres⟩
  rw [hres]
  obtain ⟨ok, st1, ds⟩ := res
  cases ok <;> simp

theorem step_isSome (st : ServerState) (c : Cmd) (hinv : Inv st) (hwf : WF st c) :
    (step st c).isSome := by
  cases c with
  | joinCmd uid un rn => simp [step]
  | disconnectCmd uid => simp [step]
  | raiseCmd o uid un rn => exact raiseHandler_isSome hwf
  | lowerCmd o uid un rn => exact lowerHandler_isSome st o uid un rn
  | instantCmd o uid un rn => exact instantHandler_isSome hwf
  | pollCmd t uid un rn => simp [step]
  | pollOptionCmd pt t uid un rn => exact pollOptionAdd_isSome st pt t uid un rn
  | voteCmd pt ot uid un rn => exact voteCast_isSome st pt ot uid un rn
  | pollCloseCmd pt uid un rn => exact pollCloseHandler_isSome st pt uid un rn
  | elevateCmd tgt req rn => exact elevateHandler_isSome hinv tgt req rn
  | recedeCmd tgt req rn => exact recedeHandler_isSome hinv tgt req rn

theorem join_inv {st : ServerState} (hinv : Inv st) (uid : Nat) (un rn : String) :
    Inv (join st uid un rn).1 :=
  inv_update_ensure hinv _ rn (fun _ hr => roomInv_insert_connected _ _ hr)

theorem disconnect_inv {st : ServerState} (hinv : Inv st) (uid : Nat) :
    Inv (disconnect st uid).1 := by
  simp only [disconnect]
  split
  · split
    · exact hinv
    · rename_i rn hfind
      show Inv ⟨_, updateRoom (updateRoom st.rooms rn _) rn _⟩
      rw [updateRoom_updateRoom]
      exact inv_update hinv _ rn (fun r hr => roomInv_disconnect uid hr)
  · exact hinv

theorem raiseHandler_inv {st : ServerState} (hinv : Inv st) {o : Json} {uid : Nat}
    {un rn : String} {res : ServerState × List Delivery}
    (h : raiseHandler st o uid un rn = some res) : Inv res.1 := by
  simp only [raiseHandler] at h
  split at h
  · cases h
  · split at h
    · cases h
      exact hinv
    · cases h
      exact inv_update_ensure hinv _ rn (fun _ hr => roomInv_set_raised _ hr)

theorem lowerHandler_inv {st : ServerState} (hinv : Inv st) {o : Json} {uid : Nat}
    {un rn : String} {res : ServerState × List Delivery}
    (h : lowerHandler st o uid un rn = some res) : Inv res.1 := by
  simp only [lowerHandler] at h
  split at h
  · cases h
    exact inv_ensure hinv _ rn
  · split at h
    · cases h
    · cases h
      exact inv_update_ensure hinv _ rn (fun _ hr => roomInv_set_raised _ hr)

theorem instantHandler_inv {st : ServerState} (hinv : Inv st) {o : Json} {uid : Nat}
    {un rn : String} {res : ServerState × List Delivery}
    (h : instantHandler st o uid un rn = some res) : Inv res.1 := by
  simp only [instantHandler] at h
  split at h
  · cases h
  · cases h
    exact hinv

theorem pollCreate_inv {st : ServerState} (hinv : Inv st) (t : String) (uid : Nat)
    (un rn : String) : Inv (pollCreate st t uid un rn).1 := by
  simp only [pollCreate]
  split
  · exact inv_ensure hinv _ rn
  · split
    · exact inv_ensure hinv _ rn
    · exact inv_update_ensure hinv _ rn (fun _ hr => roomInv_append_poll hr _ rfl)

theorem pollOptionAdd_inv {st : ServerState} (hinv : Inv st) {pt t : String}
    {uid : Nat} {un rn : String} {res : ServerState × List Delivery}
    (h : pollOptionAdd st pt t uid un rn = some res) : Inv res.1 := by
  simp only [pollOptionAdd] at h
  split at h
  · cases h
    exact inv_ensure hinv _ rn
  · split at h
    · cases h
      exact inv_ensure hinv _ rn
    · split at h
      · cases h
      · rename_i i hi
        split at h
        · cases h
        · rename_i poll hpoll
          split at h
          · cases h
            exact inv_ensure hinv _ rn
          · split at h
            · cases h
              exact inv_ensure hinv _ rn
            · cases h
              apply inv_update_ensure_room hinv _ rn
              intro hroom p' hp' hop v hv
              rcases List.mem_or_eq_of_mem_set hp' with hp' | hp'
              · exact hroom p' hp' hop v hv
              · subst hp'
                exact hroom poll (List.get?_mem hpoll) hop v hv

theorem voteCast_inv {st : ServerState} (hinv : Inv st) {pt ot : String}
    {uid : Nat} {un rn : String} {res : ServerState × List Delivery}
    (hwf : senderJoined st uid rn)
    (h : voteCast st pt ot uid un rn = some res) : Inv res.1 := by
  simp only [voteCast] at h
  split at h
  · cases h
    exact inv_ensure hinv _ rn
  · split at h
    · cases h
    · rename_i i hi
      split at h
      · cases h
      · rename_i poll hpoll
        split at h
        · cases h
          exact inv_ensure hinv _ rn
        · split at h
          · cases h
            exact inv_ensure hinv _ rn
          · cases h
            apply inv_update_ensure_room hinv _ rn
            intro hroom p' hp' hop v hv
            rcases List.mem_or_eq_of_mem_set hp' with hp' | hp'
            · exact hroom p' hp' hop v hv
            · subst hp'
              rcases mem_insertA hv with hv | hv
              · exact hroom poll (List.get?_mem hpoll) hop v (mem_removeA hv)
              · subst hv
                rcases hwf with ⟨roomW, hlookW, hconnW⟩
                show containsA (getRoomD (ensureRoom st.rooms rn) rn).connected uid = true
                rw [getRoomD_ensureRoom]
                unfold getRoomD
                rw [hlookW]
                exact hconnW

theorem pollCloseHandler_inv {st : ServerState} (hinv : Inv st) {pt : String}
    {uid : Nat} {un rn : String} {res : ServerState × List Delivery}
    (h : pollCloseHandler st pt uid un rn = some res) : Inv res.1 := by
  simp only [pollCloseHandler] at h
  split at h
  · cases h
    exact inv_ensure hinv _ rn
  · split at h
    · cases h
      exact inv_ensure hinv _ rn
    · split at h
      · cases h
      · rename_i i hi
        split at h
        · cases h
        · rename_i poll hpoll
          split at h
          · cases h
            exact inv_ensure hinv _ rn
          · cases h
            apply inv_update_ensure_room hinv _ rn
            intro hroom p' hp' hop v hv
            rcases List.mem_or_eq_of_mem_set hp' with hp' | hp'
            · exact hroom p' hp' hop v hv
            · subst hp'
              cases hop

theorem processPriviliges_inv {st : ServerState} (hinv : Inv st)
    {rn : String} {req uid : Nat} {b : Bool}
    {res : Bool × ServerState × List Delivery}
    (h : processPriviliges st rn req uid b = some res) : Inv res.2.1 := by
  simp only [processPriviliges] at h
  split at h
  · cases h
    exact hinv
  · rename_i room hlook
    split at h
    · split at h
      · split at h
        · cases h
        · cases h
          refine inv_update hinv st.sessions rn ?_
          intro r _
          have hroom : RoomInv room := by
            have := hinv.2 (rn, room) (lookupA_mem hlook)
            simpa using this
          exact roomInv_set_elevated uid b hroom
      · cases h
        exact hinv
    · cases h
      exact hinv

theorem elevateHandler_inv {st : ServerState} (hinv : Inv st)
    {tgt req : Nat} {rn : String} {res : ServerState × List Delivery}
    (h : elevateHandler st tgt req rn = some res) : Inv res.1 := by
  simp only [elevateHandler] at h
  split at h
  · cases h
  · rename_i st1 ds heq
    cases h
    exact processPriviliges_inv hinv heq
  · rename_i st1 ds heq
    cases h
    exact processPriviliges_inv hinv heq

theorem recedeHandler_inv {st : ServerState} (hinv : Inv st)
    {tgt req : Nat} {rn : String} {res : ServerState × List Delivery}
    (h : recedeHandler st tgt req rn = some res) : Inv res.1 := by
  simp only [recedeHandler] at h
  split at h
  · cases h
  · rename_i st1 ds heq
    cases h
    exact processPriviliges_inv hinv heq
  · rename_i st1 ds heq
    cases h
    exact processPriviliges_inv hinv heq

theorem step_inv {st : ServerState} {c : Cmd} {res : ServerState × List Delivery}
    (hinv : Inv st) (hwf : WF st c) (h : step st c = some res) : Inv res.1 := by
  cases c with
  | joinCmd uid un rn =>
    simp only [step] at h
    cases h
    exact join_inv hinv uid un rn
  | disconnectCmd uid =>
    simp only [step] at h
    cases h
    exact disconnect_inv hinv uid
  | raiseCmd o uid un rn => exact raiseHandler_inv hinv h
  | lowerCmd o uid un rn => exact lowerHandler_inv hinv h
  | instantCmd o uid un rn => exact instantHandler_inv hinv h
  | pollCmd t uid un rn =>
    simp only [step] at h
    cases h
    exact pollCreate_inv hinv t uid un rn
  | pollOptionCmd pt t uid un rn => exact pollOptionAdd_inv hinv h
  | voteCmd pt ot uid un rn => exact voteCast_inv hinv hwf h
  | pollCloseCmd pt uid un rn => exact pollCloseHandler_inv hinv h
  | elevateCmd tgt req rn => exact elevateHandler_inv hinv h
  | recedeCmd tgt req rn => exact recedeHandler_inv hinv h

theorem reachable_inv {s : ServerState} (h : Reachable s) : Inv s := by
  induction h with
  | init =>
    constructor
    · simp [initialState]
    · intro e he
      simp [initialState] at he
  | next hr hwf hstep ih => exact step_inv ih hwf hstep

theorem mem_insertSession_self (l : List Nat) (uid : Nat) : uid ∈ insertSession l uid := by
  unfold insertSession
  split
  · assumption
  · simp

theorem lenIte_eq_isEmpty {α : Type} (l : List α) :
    (if l.length > 0 then false else true) = l.isEmpty := by
  cases l <;> simp

theorem flatMap_one {α β : Type} (l : List α) (f : α → β) :
    (l.flatMap fun x => [f x]) = l.map f := by
  induction l with
  | nil => rfl
  | cons a t ih => simp [ih]

theorem joinReplay_eq (uid : Nat) (polls : List Poll) :
    (polls.map fun poll =>
      if poll.closed = true then [] else
        [(uid, OutMsg.pollMsg poll.title)]
        ++ poll.options.flatMap (fun o => [(uid, OutMsg.pollOptionMsg poll.title o.title)])
        ++ poll.votes.flatMap (fun v => [(uid, OutMsg.voteMsg poll.title v.2 "" 0)])).flatten
    = polls.flatMap fun poll =>
        if poll.closed = true then [] else
          (uid, OutMsg.pollMsg poll.title)
            :: ((poll.options.map fun o => (uid, OutMsg.pollOptionMsg poll.title o.title))
              ++ poll.votes.map fun v => (uid, OutMsg.voteMsg poll.title v.2 "" 0)) := by
  induction polls with
  | nil => rfl
  | cons p t ih =>
    simp only [List.map_cons, List.flatten_cons, List.flatMap_cons, ih]
    by_cases hc : p.closed = true
    · simp [hc]
    · simp only [hc, if_false, flatMap_one]
      simp

theorem join_state (st : ServerState) (uid : Nat) (un rn : String) :
    (join st uid un rn).1 = ⟨insertSession st.sessions uid,
      updateRoom (ensureRoom st.rooms rn) rn
        (joinUpdate uid un (getRoomD st.rooms rn).connected.isEmpty)⟩ := by
  have h1 : (if (getRoomD (ensureRoom st.rooms rn) rn).connected.length > 0
      then false else true) = (getRoomD st.rooms rn).connected.isEmpty := by
    rw [getRoomD_ensureRoom, lenIte_eq_isEmpty]
  simp only [join, h1]
  rfl

theorem join_lookup (st : ServerState) (uid : Nat) (un rn : String) :
    lookupA (join st uid un rn).1.rooms rn
      = some (joinUpdate uid un (getRoomD st.rooms rn).connected.isEmpty
          (getRoomD st.rooms rn)) := by
  rw [join_state]
  show lookupA (updateRoom (ensureRoom st.rooms rn) rn _) rn = _
  rw [lookupA_updateRoom_self, lookupA_ensureRoom_self]
  rfl

theorem join_deliveries (st : ServerState) (uid : Nat) (un rn : String) :
    (join st uid un rn).2 =
      sendSkip (join st uid un rn).1 rn
        (.joinedMsg uid un (getRoomD st.rooms rn).connected.isEmpty) uid
      ++ (uid, OutMsg.allMsg (getRoomD (join st uid un rn).1.rooms rn).raised
            (getRoomD (join st uid un rn).1.rooms rn).connected)
      :: (uid, OutMsg.selfMsg uid (getRoomD st.rooms rn).connected.isEmpty)
      :: (getRoomD (join st uid un rn).1.rooms rn).polls.flatMap fun poll =>
           if poll.closed = true then [] else
             (uid, OutMsg.pollMsg poll.title)
               :: ((poll.options.map fun o => (uid, OutMsg.pollOptionMsg poll.title o.title))
                 ++ poll.votes.map fun v => (uid, OutMsg.voteMsg poll.title v.2 "" 0)) := by
  have hroom1 := join_lookup st uid un rn
  have hconn : containsA (joinUpdate uid un (getRoomD st.rooms rn).connected.isEmpty
      (getRoomD st.rooms rn)).connected uid = true := by
    show (lookupA (insertA (getRoomD st.rooms rn).connected uid _) uid).isSome = true
    rw [lookupA_insertA_self]
    rfl
  have hsess : uid ∈ (join st uid un rn).1.sessions := by
    rw [join_state]
    exact mem_insertSession_self st.sessions uid
  have huser : ∀ m : OutMsg, sendUser (join st uid un rn).1 rn m uid = [(uid, m)] := by
    intro m
    exact sendUser_self hroom1 hconn hsess m
  conv_lhs => rw [show (join st uid un rn).2
    = sendSkip (join st uid un rn).1 rn
        (.joinedMsg uid un ((if (getRoomD (ensureRoom st.rooms rn) rn).connected.length > 0
          then false else true))) uid
      ++ sendUser (join st uid un rn).1 rn
          (.allMsg (getRoomD (join st uid un rn).1.rooms rn).raised
            (getRoomD (join st uid un rn).1.rooms rn).connected) uid
      ++ sendUser (join st uid un rn).1 rn
          (.selfMsg uid ((if (getRoomD (ensureRoom st.rooms rn) rn).connected.length > 0
            then false else true))) uid
      ++ ((getRoomD (join st uid un rn).1.rooms rn).polls.map fun poll =>
           if poll.closed = true then [] else
             sendUser (join st uid un rn).1 rn (.pollMsg poll.title) uid
             ++ poll.options.flatMap (fun o =>
                 sendUser (join st uid un rn).1 rn (.pollOptionMsg poll.title o.title) uid)
             ++ poll.votes.flatMap (fun v =>
                 sendUser (join st uid un rn).1 rn (.voteMsg poll.title v.2 "" 0) uid)).flatten
    from rfl]
  rw [getRoomD_ensureRoom, lenIte_eq_isEmpty]
  simp only [huser]
  rw [joinReplay_eq]
  simp

theorem parseUsize_none_of_head {s : String} {c : Char} (h : s.toList.head? = some c)
    (h1 : c ≠ '+') (h2 : c.isDigit = false) : parseUsize s = none := by
  simp only [parseUsize]
  cases hs : s.toList with
  | nil => rw [hs] at h; simp at h
  | cons c0 rest =>
    rw [hs] at h
    simp only [List.head?, Option.some_inj] at h
    subst h
    rw [show (if (c0 :: rest).head? = some '+' then (c0 :: rest).tail else c0 :: rest)
        = c0 :: rest by simp [h1]]
    rw [if_neg (List.cons_ne_nil c0 rest), if_neg]
    simp [h2]

theorem get?_set_self {α : Type} (l : List α) (i : Nat) (a x : α)
    (h : l.get? i = some x) : (l.set i a).get? i = some a := by
  have hi : i < l.length := (List.get?_eq_some.mp h).1
  simp [List.get?_eq_getElem?, List.getElem?_set_self, hi]

theorem mem_keys_insertA {l : List (κ × α)} {k x : κ} {v : α}
    (h : x ∈ (insertA l k v).map Prod.fst) : x ∈ l.map Prod.fst ∨ x = k := by
  rcases List.mem_map.mp h with ⟨e, he, hx⟩
  rcases mem_insertA he with he | he
  · left
    exact List.mem_map.mpr ⟨e, he, hx⟩
  · right
    rw [← hx, he]

theorem mem_keys_removeA {l : List (κ × α)} {k x : κ}
    (h : x ∈ (removeA l k).map Prod.fst) : x ∈ l.map Prod.fst := by
  rcases List.mem_map.mp h with ⟨e, he, hx⟩
  exact List.mem_map.mpr ⟨e, mem_removeA he, hx⟩

theorem nodupKeys_insertA {l : List (κ × α)} (k : κ) (v : α)
    (h : (l.map Prod.fst).Nodup) : ((insertA l k v).map Prod.fst).Nodup := by
  induction l with
  | nil => simp [insertA]
  | cons e t ih =>
    obtain ⟨k0, v0⟩ := e
    simp only [List.map_cons, List.nodup_cons] at h
    by_cases he : k0 = k
    · subst he
      rw [show insertA ((k0, v0) :: t) k0 v = (k0, v) :: t from by simp [insertA]]
      simp only [List.map_cons, List.nodup_cons]
      exact ⟨h.1, h.2⟩
    · simp only [insertA, if_neg he, List.map_cons, List.nodup_cons]
      refine ⟨?_, ih h.2⟩
      intro hmem
      rcases mem_keys_insertA hmem with hmem | hmem
      · exact h.1 hmem
      · exact he hmem

theorem nodupKeys_removeA {l : List (κ × α)} (k : κ)
    (h : (l.map Prod.fst).Nodup) : ((removeA l k).map Prod.fst).Nodup := by
  induction l with
  | nil => simp [removeA]
  | cons e t ih =>
    obtain ⟨k0, v0⟩ := e
    simp only [List.map_cons, List.nodup_cons] at h
    by_cases he : k0 = k
    · subst he
      rw [show removeA ((k0, v0) :: t) k0 = t from by simp [removeA]]
      exact h.2
    · simp only [removeA, if_neg he, List.map_cons, List.nodup_cons]
      exact ⟨fun hmem => h.1 (mem_keys_removeA hmem), ih h.2⟩

theorem countKey_le_one {l : List (Nat × String)}
    (hnd : (l.map Prod.fst).Nodup) (u : Nat) :
    (l.filter fun v => decide (v.1 = u)).length ≤ 1 := by
  induction l with
  | nil => simp
  | cons e t ih =>
    obtain ⟨k0, v0⟩ := e
    simp only [List.map_cons, List.nodup_cons] at hnd
    by_cases he : k0 = u
    · subst he
      rw [List.filter_cons, if_pos (by simp)]
      have hnil : (t.filter fun v => decide (v.1 = k0)) = [] := by
        rw [List.filter_eq_nil_iff]
        intro a ha
        simp only [decide_eq_true_eq]
        intro hk
        exact hnd.1 (List.mem_map.mpr ⟨a, ha, hk⟩)
      rw [hnil]
      simp
    · rw [List.filter_cons, if_neg (by simp [he])]
      exact ih hnd.2

theorem ensureRoom_of_contains {rooms : List (String × Room)} {rn : String}
    (h : containsA rooms rn = true) : ensureRoom rooms rn = rooms := by
  unfold ensureRoom
  rw [if_pos h]

theorem joinPollReplay_recipient (uid : Nat) (polls : List Poll) :
    ∀ d ∈ joinPollReplay uid polls, d.1 = uid := by
  intro d hd
  unfold joinPollReplay at hd
  rcases List.mem_flatMap.mp hd with ⟨poll, _, hd⟩
  by_cases hc : poll.closed = true
  · rw [if_pos hc] at hd
    simp at hd
  · rw [if_neg hc] at hd
    rcases List.mem_cons.mp hd with hd | hd
    · rw [hd]
    · rcases List.mem_append.mp hd with hd | hd <;>
        · rcases List.mem_map.mp hd with ⟨x, _, hx⟩
          rw [← hx]

theorem joinPollReplay_all_closed {uid : Nat} {polls : List Poll}
    (h : ∀ p ∈ polls, p.closed = true) : joinPollReplay uid polls = [] := by
  unfold joinPollReplay
  induction polls with
  | nil => rfl
  | cons p t ih =>
    rw [List.flatMap_cons, if_pos (h p (List.mem_cons_self _ _)),
      ih (fun q hq => h q (List.mem_cons_of_mem _ hq))]
    rfl

theorem findIdxA_filter_pos {α : Type} {p : α → Bool} {l : List α} {i : Nat}
    (h : findIdxA p l = some i) : ¬ (l.filter p).length = 0 := by
  rcases findIdxA_get h with ⟨x, hx, hpx⟩
  have hmem : x ∈ l.filter p := List.mem_filter.mpr ⟨List.get?_mem hx, hpx⟩
  intro hlen
  rw [List.length_eq_zero] at hlen
  rw [hlen] at hmem
  simp at hmem

theorem all_false_of_filter_len_zero {α : Type} {p : α → Bool} {l : List α}
    (h : (l.filter p).length = 0) : ∀ x ∈ l, p x = false := by
  intro x hx
  rw [List.length_eq_zero] at h
  by_cases hp : p x = true
  · have : x ∈ l.filter p := List.mem_filter.mpr ⟨hx, hp⟩
    rw [h] at this
    simp at this
  · simpa using hp

theorem filter_not_id {α : Type} {p : α → Bool} {l : List α}
    (h : ∀ x ∈ l, p x = false) : (l.filter fun x => !(p x)) = l := by
  induction l with
  | nil => rfl
  | cons a t ih =>
    rw [List.filter_cons, if_pos (by rw [h a (List.mem_cons_self _ _)]; simp)]
    rw [ih (fun x hx => h x (List.mem_cons_of_mem _ hx))]

theorem usizeMod_val : usizeMod = 18446744073709551616 := by
  norm_num [usizeMod]

theorem idCounterAt_closed (k : Nat) : idCounterAt k = (1 + k) % usizeMod := by
  induction k with
  | zero =>
    show 1 = 1 % usizeMod
    rw [usizeMod_val]
  | succ k ih =>
    show (idCounterAt k + 1) % usizeMod = (1 + (k + 1)) % usizeMod
    rw [ih, usizeMod_val]
    omega

theorem parseUsize_render (v : Json) :
    parseUsize (Json.render v) = match v with
      | .num n => if 0 ≤ n ∧ n < (2 ^ 64 : Int) then some n.toNat else none
      | _ => none := by
  have h64i : (2 ^ 64 : Int) = 18446744073709551616 := by norm_num
  have h64n : (2 ^ 64 : Nat) = 18446744073709551616 := by norm_num
  cases v with
  | null => decide
  | bool b => cases b <;> decide
  | str s =>
    apply parseUsize_none_of_head (c := '\x22')
    · show ((("\x22" ++ s) ++ "\x22").toList).head? = some '\x22'
      rw [String.toList, String.data_append, String.data_append]
      rfl
    · decide
    · decide
  | arr es =>
    apply parseUsize_none_of_head (c := '[')
    · show ((("[" ++ JsonList.render es) ++ "]").toList).head? = some '['
      rw [String.toList, String.data_append, String.data_append]
      rfl
    · decide
    · decide
  | obj fs =>
    apply parseUsize_none_of_head (c := '\x7b')
    · show ((("\x7b" ++ JsonFields.render fs) ++ "\x7d").toList).head? = some '\x7b'
      rw [String.toList, String.data_append, String.data_append]
      rfl
    · decide
    · decide
  | num n =>
    show parseUsize (Json.render (.num n))
        = if 0 ≤ n ∧ n < (2 ^ 64 : Int) then some n.toNat else none
    by_cases hn : n < 0
    · rw [show Json.render (.num n) = "-" ++ String.mk (natDecChars n.natAbs) by
        simp [Json.render, hn]]
      rw [parseUsize_none_of_head (c := '-') ?_ (by decide) (by decide)]
      · rw [if_neg (by omega)]
      · rw [String.toList, String.data_append]
        rfl
    · rw [show Json.render (.num n) = String.mk (natDecChars n.natAbs) by
        simp [Json.render, hn]]
      rw [parseUsize_mk_natDecChars]
      by_cases hlt : n.natAbs < 2 ^ 64
      · rw [if_pos hlt, if_pos (by rw [h64i]; rw [h64n] at hlt; omega)]
        congr 1
        omega
      · rw [if_neg hlt, if_neg (by rw [h64i]; rw [h64n] at hlt; omega)]

theorem classify_elevate (id : Nat) (nm rm : String) (v : Json) :
    classifyFrame id nm rm [("type", Json.str "elevate"), ("object", v)]
      = match parseUsize v.render with
        | some n => .command (.elevateCmd n id rm)
        | none => .dropped := rfl

theorem classify_recede (id : Nat) (nm rm : String) (v : Json) :
    classifyFrame id nm rm [("type", Json.str "recede"), ("object", v)]
      = match parseUsize v.render with
        | some n => .command (.recedeCmd n id rm)
        | none => .dropped := rfl

/-- Broadcast helpers only read `sessions` and the room's `connected`
list, so two states agreeing on those produce the same deliveries. -/
theorem sendSkip_congr (st1 st2 : ServerState) (rn : String) (m : OutMsg) (k : Nat)
    (hs : st1.sessions = st2.sessions)
    (hc : (lookupA st1.rooms rn).map Room.connected
      = (lookupA st2.rooms rn).map Room.connected) :
    sendSkip st1 rn m k = sendSkip st2 rn m k := by
  unfold sendSkip
  cases h1 : lookupA st1.rooms rn with
  | none =>
    cases h2 : lookupA st2.rooms rn with
    | none => rfl
    | some r2 =>
      rw [h1, h2] at hc
      simp at hc
  | some r1 =>
    cases h2 : lookupA st2.rooms rn with
    | none =>
      rw [h1, h2] at hc
      simp at hc
    | some r2 =>
      rw [h1, h2] at hc
      simp only [Option.map_some'] at hc
      injection hc with hc
      show r1.connected.filterMap _ = r2.connected.filterMap _
      rw [hc, hs]

/-- Closed form of the per-poll vote replay when every voter is connected
and the target reliably receives `user` sends. -/
theorem replayPollVotes_eq (st : ServerState) (rn : String) (uid : Nat) (e : Bool)
    (connected : List (Nat × User)) (pt : String) (votes : List (Nat × String))
    (hconn : ∀ v ∈ votes, (lookupA connected v.1).isSome = true)
    (hsend : ∀ m : OutMsg, sendUser st rn m uid = [(uid, m)]) :
    replayPollVotes st rn uid e connected pt votes = some (votes.flatMap fun v =>
      if e then
        [(uid, OutMsg.deleteVoteMsg pt v.2 0),
         (uid, OutMsg.voteMsg pt v.2 (voterName connected v.1) v.1)]
      else
        [(uid, OutMsg.deleteVoteMsg pt v.2 v.1),
         (uid, OutMsg.voteMsg pt v.2 "" 0)]) := by
  induction votes with
  | nil => rfl
  | cons v rest ih =>
    obtain ⟨vid, vopt⟩ := v
    have hv := hconn ⟨vid, vopt⟩ (by simp)
    cases hu : lookupA connected vid with
    | none =>
      rw [hu] at hv
      cases hv
    | some u =>
      have ihr := ih fun w hw => hconn w (by simp [hw])
      simp only [replayPollVotes, hu, ihr, hsend, List.flatMap_cons]
      have hn : voterName connected vid = u.name := by
        unfold voterName
        rw [hu]
        rfl
      cases e <;> simp [hn]

/-- Closed form of the poll replay loop of `process_priviliges`. -/
theorem replayPolls_eq (st : ServerState) (rn : String) (uid : Nat) (e : Bool)
    (connected : List (Nat × User)) (polls : List Poll)
    (hconn : ∀ p ∈ polls, p.closed = false → ∀ v ∈ p.votes,
      (lookupA connected v.1).isSome = true)
    (hsend : ∀ m : OutMsg, sendUser st rn m uid = [(uid, m)]) :
    replayPolls st rn uid e connected polls
      = some (privilegeReplay uid e connected polls) := by
  induction polls with
  | nil => rfl
  | cons p rest ih =>
    have ihr := ih fun q hq => hconn q (by simp [hq])
    by_cases hc : p.closed = true
    · simp only [replayPolls, if_pos hc, ihr]
      simp [privilegeReplay, hc]
    · have hc0 : p.closed = false := by
        cases hcl : p.closed
        · rfl
        · exact absurd hcl hc
      have hv := replayPollVotes_eq st rn uid e connected p.title p.votes
        (hconn p (by simp) hc0) hsend
      simp only [replayPolls, if_neg hc, hv, ihr]
      simp [privilegeReplay, hc0]

/-- Every delivery of the privilege replay goes to the target. -/
theorem privilegeReplay_recipient (tgt : Nat) (e : Bool)
    (connected : List (Nat × User)) (polls : List Poll) :
    ∀ d ∈ privilegeReplay tgt e connected polls, d.1 = tgt := by
  intro d hd
  simp only [privilegeReplay, List.mem_flatMap] at hd
  obtain ⟨p, hp, hd⟩ := hd
  split at hd
  · cases hd
  · simp only [List.mem_flatMap] at hd
    obtain ⟨v, hv, hd⟩ := hd
    split at hd <;> simp at hd <;> rcases hd with rfl | rfl <;> rfl

end Lemmas

/-- C1: for every coordinator state (hence every reachable one, including
a previously used room whose members all disconnected), a Join inserts
the joining user with `elevated` equal to the emptiness of the room's
`connected` map at join time — `true` exactly when it was empty — and the
`self` message delivered to the joiner carries that same flag. -/
theorem c1_join_elevation (st : ServerState) (uid : Nat) (un rn : String) :
    (∃ room', lookupA (join st uid un rn).1.rooms rn = some room' ∧
        lookupA room'.connected uid
          = some ⟨un, (getRoomD st.rooms rn).connected.isEmpty⟩) ∧
    (uid, OutMsg.selfMsg uid (getRoomD st.rooms rn).connected.isEmpty)
      ∈ (join st uid un rn).2 := by
  constructor
  · refine ⟨_, join_lookup st uid un rn, ?_⟩
    show lookupA (insertA (getRoomD st.rooms rn).connected uid _) uid = _
    rw [lookupA_insertA_self]
  · rw [join_deliveries]
    simp

/-- C2 (code bug): a valid JSON object frame without a `type` field, or
with a known `type` but a missing required field, is not dropped
silently: `main.rs` indexes the `HashMap` with the missing key, which
panics (outcome `panicked`).  A present but non-string `type` is indeed
dropped, showing the silent-drop intent. -/
theorem c2_missing_field_panics :
    classifyFrame 1 "a" "R" [] = FrameOutcome.panicked ∧
    classifyFrame 1 "a" "R" [("type", Json.str "raise")] = FrameOutcome.panicked ∧
    classifyFrame 1 "a" "R" [("type", Json.str "elevate")] = FrameOutcome.panicked ∧
    classifyFrame 1 "a" "R" [("type", Json.str "vote"), ("pollobject", Json.str "p")]
      = FrameOutcome.panicked ∧
    classifyFrame 1 "a" "R" [("type", Json.num 3)] = FrameOutcome.dropped := by
  decide

/-- C3 (counterexample): an `elevate` frame whose `object` is the JSON
string "2" is silently dropped — `Value::to_string()` keeps the quotes,
so `parse::<usize>()` fails — although the claim promises the command
`Elevate 2`. -/
theorem c3_counterexample :
    classifyFrame 1 "a" "R" [("type", Json.str "elevate"), ("object", Json.str "2")]
        = FrameOutcome.dropped ∧
    FrameOutcome.dropped ≠ FrameOutcome.command (Cmd.elevateCmd 2 1 "R") := by
  decide

/-- C3 (amended): `elevate` / `recede` parse the JSON serialization of
the `object` value: a JSON number holding an unsigned integer below
`2^64` produces the command with that target uid; every other present
`object` value — including every JSON string, whose serialization
carries quotes — is silently dropped. -/
theorem c3_object_parsing (id : Nat) (nm rm : String) (v : Json) :
    (classifyFrame id nm rm [("type", Json.str "elevate"), ("object", v)]
        = match v with
          | .num n => if 0 ≤ n ∧ n < (2 ^ 64 : Int)
              then FrameOutcome.command (.elevateCmd n.toNat id rm)
              else FrameOutcome.dropped
          | _ => FrameOutcome.dropped) ∧
    (classifyFrame id nm rm [("type", Json.str "recede"), ("object", v)]
        = match v with
          | .num n => if 0 ≤ n ∧ n < (2 ^ 64 : Int)
              then FrameOutcome.command (.recedeCmd n.toNat id rm)
              else FrameOutcome.dropped
          | _ => FrameOutcome.dropped) := by
  constructor
  · rw [classify_elevate, parseUsize_render]
    cases v with
    | num n =>
      show (match (if 0 ≤ n ∧ n < (2 ^ 64 : Int) then some n.toNat else none : Option Nat) with
            | some k => FrameOutcome.command (Cmd.elevateCmd k id rm)
            | none => FrameOutcome.dropped)
          = if 0 ≤ n ∧ n < (2 ^ 64 : Int)
              then FrameOutcome.command (Cmd.elevateCmd n.toNat id rm)
              else FrameOutcome.dropped
      by_cases hP : 0 ≤ n ∧ n < (2 ^ 64 : Int)
      · rw [if_pos hP]
        show FrameOutcome.command (Cmd.elevateCmd n.toNat id rm) = _
        rw [if_pos hP]
      · rw [if_neg hP]
        show FrameOutcome.dropped = _
        rw [if_neg hP]
    | null => rfl
    | bool b => rfl
    | str s => rfl
    | arr es => rfl
    | obj fs => rfl
  · rw [classify_recede, parseUsize_render]
    cases v with
    | num n =>
      show (match (if 0 ≤ n ∧ n < (2 ^ 64 : Int) then some n.toNat else none : Option Nat) with
            | some k => FrameOutcome.command (Cmd.recedeCmd k id rm)
            | none => FrameOutcome.dropped)
          = if 0 ≤ n ∧ n < (2 ^ 64 : Int)
              then FrameOutcome.command (Cmd.recedeCmd n.toNat id rm)
              else FrameOutcome.dropped
      by_cases hP : 0 ≤ n ∧ n < (2 ^ 64 : Int)
      · rw [if_pos hP]
        show FrameOutcome.command (Cmd.recedeCmd n.toNat id rm) = _
        rw [if_pos hP]
      · rw [if_neg hP]
        show FrameOutcome.dropped = _
        rw [if_neg hP]
    | null => rfl
    | bool b => rfl
    | str s => rfl
    | arr es => rfl
    | obj fs => rfl

/-- C4 (counterexample): elevating user 2 in `exStVoted` (new role:
elevated) replays its vote with a `deletevote` whose userid is 0, not the
real userid 2 the claim requires for the new elevated role; the zeroed
identity follows the target's old role instead. -/
theorem c4_counterexample :
    elevateHandler exStVoted 2 1 "R" = some
      (⟨[1, 2], [("R", Room.mk []
          [Poll.mk "p" 1 "a" "R" [PollOption.mk "x" 1 "a" "R" "p"] [(2, "x")] false]
          [(1, ⟨"a", true⟩), (2, ⟨"b", true⟩)])]⟩,
        [(2, OutMsg.deleteVoteMsg "p" "x" 0), (2, OutMsg.voteMsg "p" "x" "b" 2),
         (1, OutMsg.elevatedMsg 2 true), (2, OutMsg.elevatedMsg 2 true)]) ∧
    (2, OutMsg.deleteVoteMsg "p" "x" 2) ∉
      [(2, OutMsg.deleteVoteMsg "p" "x" 0), (2, OutMsg.voteMsg "p" "x" "b" 2),
       (1, OutMsg.elevatedMsg 2 true), (2, OutMsg.elevatedMsg 2 true)] := by
  decide

/-- C4 (amended): a successful Elevate (`b = true`) or Recede
(`b = false`) of a connected target emits, before the
`elevated`/`receded` broadcast and to the target only, per vote of each
open poll a `deletevote` then a `vote`; the `vote` is filled per the
target's new role (elevated: real identity; non-elevated: zeroed), while
the `deletevote` is filled per the target's old role (elevation zeroes
it, recession keeps the real userid). -/
theorem c4_privilege_replay (st : ServerState) (tgt req : Nat) (rn : String)
    (room : Room) (b : Bool)
    (hroom : lookupA st.rooms rn = some room)
    (hreq : room.is_elevated req = some true)
    (htgt : room.is_elevated tgt = some (!b))
    (hsess : tgt ∈ st.sessions)
    (hvoters : ∀ p ∈ room.polls, p.closed = false → ∀ v ∈ p.votes,
      containsA room.connected v.1 = true) :
    ∃ st1, (if b then elevateHandler st tgt req rn else recedeHandler st tgt req rn)
        = some (st1,
          privilegeReplay tgt b (room.set_elevated tgt b).connected room.polls
          ++ (if b then sendAll st1 rn (.elevatedMsg tgt true)
              else sendAll st1 rn (.recededMsg tgt false))) ∧
      ∀ d ∈ privilegeReplay tgt b (room.set_elevated tgt b).connected room.polls,
        d.1 = tgt := by
  have hne : (!b) ≠ b := by cases b <;> decide
  have hlook1 : lookupA (⟨st.sessions,
      updateRoom st.rooms rn fun _ => room.set_elevated tgt b⟩ : ServerState).rooms rn
      = some (room.set_elevated tgt b) := by
    show lookupA (updateRoom st.rooms rn fun _ => room.set_elevated tgt b) rn = _
    rw [lookupA_updateRoom_self, hroom]
    rfl
  have hcontT : containsA room.connected tgt = true := by
    unfold Room.is_elevated at htgt
    unfold containsA
    cases hl : lookupA room.connected tgt
    · rw [hl] at htgt
      cases htgt
    · rfl
  have hcont2 : containsA (room.set_elevated tgt b).connected tgt = true := by
    rw [set_elevated_contains]
    exact hcontT
  have hsend : ∀ m : OutMsg, sendUser (⟨st.sessions,
      updateRoom st.rooms rn fun _ => room.set_elevated tgt b⟩ : ServerState)
      rn m tgt = [(tgt, m)] :=
    fun m => sendUser_self hlook1 hcont2 hsess m
  have hconn : ∀ p ∈ (room.set_elevated tgt b).polls, p.closed = false →
      ∀ v ∈ p.votes,
      (lookupA (room.set_elevated tgt b).connected v.1).isSome = true := by
    rw [set_elevated_polls]
    intro p hp hc v hv
    have := hvoters p hp hc v hv
    rw [show (lookupA (Room.set_elevated room tgt b).connected v.1).isSome
        = containsA (Room.set_elevated room tgt b).connected v.1 from rfl]
    rw [set_elevated_contains]
    exact this
  have hreplay := replayPolls_eq (⟨st.sessions,
      updateRoom st.rooms rn fun _ => room.set_elevated tgt b⟩ : ServerState)
    rn tgt b (room.set_elevated tgt b).connected (room.set_elevated tgt b).polls
    hconn hsend
  have hpp : processPriviliges st rn req tgt b = some (true,
      (⟨st.sessions, updateRoom st.rooms rn fun _ => room.set_elevated tgt b⟩ : ServerState),
      privilegeReplay tgt b (room.set_elevated tgt b).connected
        (room.set_elevated tgt b).polls) := by
    simp only [processPriviliges]
    split
    · rename_i heq
      rw [hroom] at heq
      cases heq
    · rename_i r heq
      rw [hroom] at heq
      injection heq with heq
      subst heq
      split
      · rename_i reqE usrE heqr heqt
        rw [hreq] at heqr
        rw [htgt] at heqt
        injection heqr with heqr
        injection heqt with heqt
        subst heqr
        subst heqt
        rw [if_pos ⟨rfl, hne⟩]
        rw [hreplay]
      · rename_i hnone
        exact (hnone true (!b) hreq htgt).elim
  refine ⟨(⟨st.sessions, updateRoom st.rooms rn fun _ => room.set_elevated tgt b⟩ :
      ServerState), ?_, ?_⟩
  · cases b
    · show recedeHandler st tgt req rn = _
      simp only [recedeHandler, hpp]
      rw [show (Room.set_elevated room tgt false).polls = room.polls from
        set_elevated_polls room tgt false]
      rfl
    · show elevateHandler st tgt req rn = _
      simp only [elevateHandler, hpp]
      rw [show (Room.set_elevated room tgt true).polls = room.polls from
        set_elevated_polls room tgt true]
      rfl
  · exact privilegeReplay_recipient tgt b (room.set_elevated tgt b).connected room.polls

/-- C4 witness: elevating user 2 in `exStVoted`, whose open poll `p`
holds the vote `(2, "x")`. -/
theorem c4_privilege_replay_witness :
    ∃ st1, (if true then elevateHandler exStVoted 2 1 "R"
        else recedeHandler exStVoted 2 1 "R")
        = some (st1,
          privilegeReplay 2 true ((Room.mk []
            [Poll.mk "p" 1 "a" "R" [PollOption.mk "x" 1 "a" "R" "p"] [(2, "x")] false]
            [(1, ⟨"a", true⟩), (2, ⟨"b", false⟩)]).set_elevated 2 true).connected
            (Room.mk []
            [Poll.mk "p" 1 "a" "R" [PollOption.mk "x" 1 "a" "R" "p"] [(2, "x")] false]
            [(1, ⟨"a", true⟩), (2, ⟨"b", false⟩)]).polls
          ++ (if true then sendAll st1 "R" (.elevatedMsg 2 true)
              else sendAll st1 "R" (.recededMsg 2 false))) ∧
      ∀ d ∈ privilegeReplay 2 true ((Room.mk []
            [Poll.mk "p" 1 "a" "R" [PollOption.mk "x" 1 "a" "R" "p"] [(2, "x")] false]
            [(1, ⟨"a", true⟩), (2, ⟨"b", false⟩)]).set_elevated 2 true).connected
            (Room.mk []
            [Poll.mk "p" 1 "a" "R" [PollOption.mk "x" 1 "a" "R" "p"] [(2, "x")] false]
            [(1, ⟨"a", true⟩), (2, ⟨"b", false⟩)]).polls,
        d.1 = 2 :=
  c4_privilege_replay exStVoted 2 1 "R"
    (Room.mk []
      [Poll.mk "p" 1 "a" "R" [PollOption.mk "x" 1 "a" "R" "p"] [(2, "x")] false]
      [(1, ⟨"a", true⟩), (2, ⟨"b", false⟩)])
    true (by decide) (by decide) (by decide) (by decide) (by decide)

/-- C5 (counterexample): a reachable room with empty `connected` but a
retained open poll (creator joined, created the poll, disconnected) does
replay the poll to the next joiner, although the claim promises no
poll-family messages for a joiner of an empty-`connected` room. -/
theorem c5_counterexample :
    (getRoomD exStEmptyWithPoll.rooms "R").connected = [] ∧
    (5, OutMsg.pollMsg "p") ∈ (join exStEmptyWithPoll 5 "u" "R").2 := by
  decide

/-- C5 (amended): on every Join the joiner — and in the replay segment
only the joiner — receives, per open poll in insertion order, one `poll`,
then one `polloption` per option in order, then one redacted `vote`
(`username=""`, `userid=0`) per recorded vote; closed polls are not
replayed; and when the room holds no open poll the joiner receives no
poll-family message at all. -/
theorem c5_join_replay (st : ServerState) (uid : Nat) (un rn : String) :
    ((join st uid un rn).2 =
      sendSkip (join st uid un rn).1 rn
        (.joinedMsg uid un (getRoomD st.rooms rn).connected.isEmpty) uid
      ++ (uid, OutMsg.allMsg (getRoomD (join st uid un rn).1.rooms rn).raised
            (getRoomD (join st uid un rn).1.rooms rn).connected)
      :: (uid, OutMsg.selfMsg uid (getRoomD st.rooms rn).connected.isEmpty)
      :: joinPollReplay uid (getRoomD (join st uid un rn).1.rooms rn).polls) ∧
    (∀ d ∈ joinPollReplay uid (getRoomD (join st uid un rn).1.rooms rn).polls,
      d.1 = uid) ∧
    ((∀ p ∈ (getRoomD (join st uid un rn).1.rooms rn).polls, p.closed = true) →
      joinPollReplay uid (getRoomD (join st uid un rn).1.rooms rn).polls = []) := by
  refine ⟨?_, joinPollReplay_recipient _ _, fun h => joinPollReplay_all_closed h⟩
  rw [join_deliveries]
  rfl

/-- C6: a Disconnect of a connected user purges the raised objects owned
by it, deletes its votes in every open poll while leaving closed polls
intact, broadcasts one `all` snapshot of the updated room, and emits per
removed vote one `deletevote` with the real userid to the elevated
members and one with userid 0 to the non-elevated members. -/
theorem c6_disconnect (st : ServerState) (uid : Nat) (rn : String) (room : Room)
    (hsess : uid ∈ st.sessions)
    (hfind : findRoomOf st.rooms uid = some rn)
    (hroom : lookupA st.rooms rn = some room) :
    ∃ st2 ds, disconnect st uid = (st2, ds) ∧
      ∃ room2, lookupA st2.rooms rn = some room2 ∧
        room2.raised = room.raised.filter (fun e => decide (e.owner_id ≠ uid)) ∧
        room2.connected = removeA room.connected uid ∧
        room2.polls = (room.polls.map fun p => if p.closed then p
          else { p with votes := p.votes.filter fun v => decide (v.1 ≠ uid) }) ∧
        ds = sendAll st2 rn (.allMsg room2.raised room2.connected)
          ++ ((room.polls.map fun p => if p.closed then []
              else (p.votes.filter fun v => decide (v.1 = uid)).map
                fun v => (p.title, v.2)).flatten.flatMap fun pr =>
            sendElevated st2 rn (.deleteVoteMsg pr.1 pr.2 uid))
          ++ ((room.polls.map fun p => if p.closed then []
              else (p.votes.filter fun v => decide (v.1 = uid)).map
                fun v => (p.title, v.2)).flatten.flatMap fun pr =>
            sendNotElevated st2 rn (.deleteVoteMsg pr.1 pr.2 0)) := by
  have hlook1 : lookupA (updateRoom st.rooms rn fun r =>
      Room.remove_user { r with connected := removeA r.connected uid } uid) rn
      = some (Room.remove_user { room with connected := removeA room.connected uid } uid) := by
    rw [lookupA_updateRoom_self, hroom]
    rfl
  have heq : disconnect st uid = ((⟨st.sessions.filter fun x => decide (x ≠ uid),
      updateRoom (updateRoom st.rooms rn fun r =>
        Room.remove_user { r with connected := removeA r.connected uid } uid) rn
        fun r => { r with polls := r.polls.map fun p => if p.closed then p
          else { p with votes := p.votes.filter fun v => decide (v.1 ≠ uid) } }⟩ : ServerState),
      sendAll (⟨st.sessions.filter fun x => decide (x ≠ uid),
          updateRoom st.rooms rn fun r =>
            Room.remove_user { r with connected := removeA r.connected uid } uid⟩ : ServerState)
        rn (.allMsg
          (Room.remove_user { room with connected := removeA room.connected uid } uid).raised
          (Room.remove_user { room with connected := removeA room.connected uid } uid).connected)
      ++ ((room.polls.map fun p => if p.closed then []
          else (p.votes.filter fun v => decide (v.1 = uid)).map
            fun v => (p.title, v.2)).flatten.flatMap fun pr =>
        sendElevated (⟨st.sessions.filter fun x => decide (x ≠ uid),
          updateRoom (updateRoom st.rooms rn fun r =>
            Room.remove_user { r with connected := removeA r.connected uid } uid) rn
            fun r => { r with polls := r.polls.map fun p => if p.closed then p
              else { p with votes := p.votes.filter fun v => decide (v.1 ≠ uid) } }⟩ : ServerState)
          rn (.deleteVoteMsg pr.1 pr.2 uid))
      ++ ((room.polls.map fun p => if p.closed then []
          else (p.votes.filter fun v => decide (v.1 = uid)).map
            fun v => (p.title, v.2)).flatten.flatMap fun pr =>
        sendNotElevated (⟨st.sessions.filter fun x => decide (x ≠ uid),
          updateRoom (updateRoom st.rooms rn fun r =>
            Room.remove_user { r with connected := removeA r.connected uid } uid) rn
            fun r => { r with polls := r.polls.map fun p => if p.closed then p
              else { p with votes := p.votes.filter fun v => decide (v.1 ≠ uid) } }⟩ : ServerState)
          rn (.deleteVoteMsg pr.1 pr.2 0))) := by
    simp only [disconnect]
    rw [if_pos hsess]
    split
    · rename_i heq2
      rw [hfind] at heq2
      cases heq2
    · rename_i rn2 heq2
      rw [hfind] at heq2
      injection heq2 with heq2
      subst heq2
      rw [show getRoomD (updateRoom st.rooms rn fun r =>
          Room.remove_user { r with connected := removeA r.connected uid } uid) rn
          = Room.remove_user { room with connected := removeA room.connected uid } uid from by
        unfold getRoomD
        rw [hlook1]
        rfl]
      rfl
  refine ⟨_, _, heq, ?_⟩
  refine ⟨(⟨room.raised.filter fun e => decide (e.owner_id ≠ uid),
      room.polls.map fun p => if p.closed then p
        else { p with votes := p.votes.filter fun v => decide (v.1 ≠ uid) },
      removeA room.connected uid⟩ : Room), ?_, rfl, rfl, rfl, ?_⟩
  · show lookupA (updateRoom (updateRoom st.rooms rn fun r =>
        Room.remove_user { r with connected := removeA r.connected uid } uid) rn
        fun r => { r with polls := r.polls.map fun p => if p.closed then p
          else { p with votes := p.votes.filter fun v => decide (v.1 ≠ uid) } }) rn = _
    rw [lookupA_updateRoom_self, hlook1]
    rfl
  · have hAll : sendAll (⟨st.sessions.filter fun x => decide (x ≠ uid),
        updateRoom st.rooms rn fun r =>
          Room.remove_user { r with connected := removeA r.connected uid } uid⟩ : ServerState)
        rn (.allMsg (room.raised.filter fun e => decide (e.owner_id ≠ uid))
          (removeA room.connected uid))
        = sendAll (⟨st.sessions.filter fun x => decide (x ≠ uid),
        updateRoom (updateRoom st.rooms rn fun r =>
          Room.remove_user { r with connected := removeA r.connected uid } uid) rn
          fun r => { r with polls := r.polls.map fun p => if p.closed then p
            else { p with votes := p.votes.filter fun v => decide (v.1 ≠ uid) } }⟩ : ServerState)
        rn (.allMsg (room.raised.filter fun e => decide (e.owner_id ≠ uid))
          (removeA room.connected uid)) := by
      unfold sendAll
      refine sendSkip_congr _ _ _ _ _ rfl ?_
      show (lookupA (updateRoom st.rooms rn fun r =>
          Room.remove_user { r with connected := removeA r.connected uid } uid) rn).map
          Room.connected = _
      rw [hlook1, lookupA_updateRoom_self, hlook1]
      rfl
    show sendAll _ rn (.allMsg
        (Room.remove_user { room with connected := removeA room.connected uid } uid).raised
        (Room.remove_user { room with connected := removeA room.connected uid } uid).connected)
        ++ _ ++ _ = _
    rw [show (OutMsg.allMsg
        (Room.remove_user { room with connected := removeA room.connected uid } uid).raised
        (Room.remove_user { room with connected := removeA room.connected uid } uid).connected)
        = (.allMsg (room.raised.filter fun e => decide (e.owner_id ≠ uid))
          (removeA room.connected uid)) from rfl]
    rw [hAll]

/-- C6 witness: user 2 disconnects from `exStVoted`, where it holds a
recorded vote in the open poll `p`. -/
theorem c6_disconnect_witness :
    ∃ st2 ds, disconnect exStVoted 2 = (st2, ds) ∧
      ∃ room2, lookupA st2.rooms "R" = some room2 ∧
        room2.raised = ((Room.mk []
          [Poll.mk "p" 1 "a" "R" [PollOption.mk "x" 1 "a" "R" "p"] [(2, "x")] false]
          [(1, ⟨"a", true⟩), (2, ⟨"b", false⟩)]).raised.filter
            (fun e => decide (e.owner_id ≠ 2))) ∧
        room2.connected = removeA (Room.mk []
          [Poll.mk "p" 1 "a" "R" [PollOption.mk "x" 1 "a" "R" "p"] [(2, "x")] false]
          [(1, ⟨"a", true⟩), (2, ⟨"b", false⟩)]).connected 2 ∧
        room2.polls = ((Room.mk []
          [Poll.mk "p" 1 "a" "R" [PollOption.mk "x" 1 "a" "R" "p"] [(2, "x")] false]
          [(1, ⟨"a", true⟩), (2, ⟨"b", false⟩)]).polls.map fun p => if p.closed then p
            else { p with votes := p.votes.filter fun v => decide (v.1 ≠ 2) }) ∧
        ds = sendAll st2 "R" (.allMsg room2.raised room2.connected)
          ++ (((Room.mk []
              [Poll.mk "p" 1 "a" "R" [PollOption.mk "x" 1 "a" "R" "p"] [(2, "x")] false]
              [(1, ⟨"a", true⟩), (2, ⟨"b", false⟩)]).polls.map fun p => if p.closed then []
              else (p.votes.filter fun v => decide (v.1 = 2)).map
                fun v => (p.title, v.2)).flatten.flatMap fun pr =>
            sendElevated st2 "R" (.deleteVoteMsg pr.1 pr.2 2))
          ++ (((Room.mk []
              [Poll.mk "p" 1 "a" "R" [PollOption.mk "x" 1 "a" "R" "p"] [(2, "x")] false]
              [(1, ⟨"a", true⟩), (2, ⟨"b", false⟩)]).polls.map fun p => if p.closed then []
              else (p.votes.filter fun v => decide (v.1 = 2)).map
                fun v => (p.title, v.2)).flatten.flatMap fun pr =>
            sendNotElevated st2 "R" (.deleteVoteMsg pr.1 pr.2 0)) :=
  c6_disconnect exStVoted 2 "R"
    (Room.mk []
      [Poll.mk "p" 1 "a" "R" [PollOption.mk "x" 1 "a" "R" "p"] [(2, "x")] false]
      [(1, ⟨"a", true⟩), (2, ⟨"b", false⟩)])
    (by decide) (by decide) (by decide)

/-- C7: after any successful Vote, `poll.votes` maps each user id to at
most one option: the previous entry of the voter, if any, is replaced by
the new one; and exactly when a previous vote existed, the `deletevote`
pair (real userid to elevated members, 0 to non-elevated members) is
emitted strictly before the new `vote` pair, while a first vote emits the
`vote` pair alone. -/
theorem c7_vote_overwrite (st : ServerState) (pt ot : String) (uid : Nat)
    (un rn : String) (room : Room) (idx : Nat) (poll : Poll)
    (hroom : lookupA st.rooms rn = some room)
    (hidx : findIdxA (fun p => decide (p.title = pt)) room.polls = some idx)
    (hpoll : room.polls.get? idx = some poll)
    (hopen : poll.closed = false)
    (hopt : ¬ (poll.options.filter fun o => decide (o.title = ot)).length = 0)
    (hnd : (poll.votes.map Prod.fst).Nodup) :
    ∃ st1, voteCast st pt ot uid un rn = some (st1,
        (match lookupA poll.votes uid with
          | none => []
          | some prevOpt =>
              sendElevated st1 rn (.deleteVoteMsg poll.title prevOpt uid)
              ++ sendNotElevated st1 rn (.deleteVoteMsg poll.title prevOpt 0))
        ++ (sendElevated st1 rn (.voteMsg poll.title ot un uid)
          ++ sendNotElevated st1 rn (.voteMsg poll.title ot "" 0))) ∧
      ∃ room1 poll1, lookupA st1.rooms rn = some room1 ∧
        room1.polls.get? idx = some poll1 ∧
        lookupA poll1.votes uid = some ot ∧
        ∀ u : Nat, (poll1.votes.filter fun v => decide (v.1 = u)).length ≤ 1 := by
  have hens : ensureRoom st.rooms rn = st.rooms :=
    ensureRoom_of_contains (by rw [containsA, hroom]; rfl)
  have hget : getRoomD st.rooms rn = room := by
    unfold getRoomD
    rw [hroom]
    rfl
  have heq : voteCast st pt ot uid un rn = some
      (⟨st.sessions, updateRoom st.rooms rn
          (voteUpdate idx poll (insertA (removeA poll.votes uid) uid ot))⟩,
       (match lookupA poll.votes uid with
         | none => []
         | some prevOpt =>
             sendElevated (⟨st.sessions, updateRoom st.rooms rn
                 (voteUpdate idx poll (insertA (removeA poll.votes uid) uid ot))⟩ : ServerState)
               rn (.deleteVoteMsg poll.title prevOpt uid)
             ++ sendNotElevated (⟨st.sessions, updateRoom st.rooms rn
                 (voteUpdate idx poll (insertA (removeA poll.votes uid) uid ot))⟩ : ServerState)
               rn (.deleteVoteMsg poll.title prevOpt 0))
       ++ (sendElevated (⟨st.sessions, updateRoom st.rooms rn
            (voteUpdate idx poll (insertA (removeA poll.votes uid) uid ot))⟩ : ServerState)
          rn (.voteMsg poll.title ot un uid)
        ++ sendNotElevated (⟨st.sessions, updateRoom st.rooms rn
            (voteUpdate idx poll (insertA (removeA poll.votes uid) uid ot))⟩ : ServerState)
          rn (.voteMsg poll.title ot "" 0))) := by
    simp only [voteCast]
    rw [hens, hget]
    rw [if_neg (findIdxA_filter_pos hidx)]
    split
    · rename_i hq
      rw [hidx] at hq
      cases hq
    · rename_i i hq
      rw [hidx] at hq
      injection hq with hq
      subst hq
      split
      · rename_i hq2
        rw [hpoll] at hq2
        cases hq2
      · rename_i p2 hq2
        rw [hpoll] at hq2
        injection hq2 with hq2
        subst hq2
        rw [if_neg (by rw [hopen]; simp)]
        rw [if_neg hopt]
        rfl
  refine ⟨_, heq, ?_⟩
  refine ⟨voteUpdate idx poll (insertA (removeA poll.votes uid) uid ot) room,
    ({ poll with votes := insertA (removeA poll.votes uid) uid ot } : Poll),
    ?_, ?_, ?_, ?_⟩
  · show lookupA (updateRoom st.rooms rn _) rn = _
    rw [lookupA_updateRoom_self, hroom]
    rfl
  · exact get?_set_self _ _ _ _ hpoll
  · exact lookupA_insertA_self _ _ _
  · intro u
    exact countKey_le_one (nodupKeys_insertA _ _ (nodupKeys_removeA _ hnd)) u

/-- C7 witness: user 2 re-votes for option `x` of the open poll `p` in
the reachable two-user state. -/
theorem c7_vote_overwrite_witness :
    ∃ st1, voteCast exStVoted "p" "x" 2 "b" "R" = some (st1,
        (match lookupA (Poll.mk "p" 1 "a" "R" [PollOption.mk "x" 1 "a" "R" "p"]
            [(2, "x")] false).votes 2 with
          | none => []
          | some prevOpt =>
              sendElevated st1 "R" (.deleteVoteMsg "p" prevOpt 2)
              ++ sendNotElevated st1 "R" (.deleteVoteMsg "p" prevOpt 0))
        ++ (sendElevated st1 "R" (.voteMsg "p" "x" "b" 2)
          ++ sendNotElevated st1 "R" (.voteMsg "p" "x" "" 0))) ∧
      ∃ room1 poll1, lookupA st1.rooms "R" = some room1 ∧
        room1.polls.get? 0 = some poll1 ∧
        lookupA poll1.votes 2 = some "x" ∧
        ∀ u : Nat, (poll1.votes.filter fun v => decide (v.1 = u)).length ≤ 1 :=
  c7_vote_overwrite exStVoted "p" "x" 2 "b" "R"
    (Room.mk []
      [Poll.mk "p" 1 "a" "R" [PollOption.mk "x" 1 "a" "R" "p"] [(2, "x")] false]
      [(1, ⟨"a", true⟩), (2, ⟨"b", false⟩)])
    0 (Poll.mk "p" 1 "a" "R" [PollOption.mk "x" 1 "a" "R" "p"] [(2, "x")] false)
    (by decide) (by decide) (by decide) (by decide) (by decide) (by decide)

/-- C8 (counterexample): from a reachable state in which `(x, 1)` is
already raised, two consecutive raises of that key send two
`already_raised` errors (one each), not exactly one as the claim states
for every room state. -/
theorem c8_counterexample :
    twoRaises exStRaised (Json.str "x") 1 "a" "R" = some (exStRaised,
      [(1, OutMsg.errorMsg "already_raised" "Refusing to raise, already raised"),
       (1, OutMsg.errorMsg "already_raised" "Refusing to raise, already raised")]) := by
  decide

/-- C8 (amended): for every room state and key `(object, owner)` that is
not currently raised: a successful raise immediately followed by a lower
of the same key leaves `room.raised` equal to its initial value; and two
consecutive raises of that key leave exactly one matching element in
`room.raised`, the first broadcasting `raised` and the second sending
exactly one `already_raised` error to the raiser only. -/
theorem c8_raise_lower_roundtrip (st : ServerState) (o : Json) (uid : Nat)
    (un rn : String) (room : Room)
    (hroom : lookupA st.rooms rn = some room)
    (hfresh : (room.raised.filter fun e =>
      decide (e.object = o ∧ e.owner_id = uid)).length = 0)
    (hconn : containsA room.connected uid = true) (hsess : uid ∈ st.sessions) :
    ∃ st1 ds1 st2 ds2,
      raiseHandler st o uid un rn = some (st1, ds1) ∧
      ds1 = sendAll st rn (.raisedMsg uid un o ((room.is_elevated uid).getD false)) ∧
      lowerHandler st1 o uid un rn = some (st2, ds2) ∧
      (∃ room2, lookupA st2.rooms rn = some room2 ∧ room2.raised = room.raised) ∧
      (∃ room1, lookupA st1.rooms rn = some room1 ∧
        (room1.raised.filter fun e =>
          decide (e.object = o ∧ e.owner_id = uid)).length = 1) ∧
      raiseHandler st1 o uid un rn
        = some (st1, [(uid, OutMsg.errorMsg "already_raised"
            "Refusing to raise, already raised")]) := by
  have hnotpos : ¬ 0 < (room.raised.filter fun e =>
      decide (e.object = o ∧ e.owner_id = uid)).length := by
    rw [hfresh]
    omega
  have hp0 : (decide ((⟨o, uid, un⟩ : Raised).object = o
      ∧ (⟨o, uid, un⟩ : Raised).owner_id = uid)) = true := by
    simp
  have h1 : raiseHandler st o uid un rn = some
      (⟨st.sessions, updateRoom (ensureRoom st.rooms rn) rn fun r =>
        { r with raised := r.raised ++ [⟨o, uid, un⟩] }⟩,
       sendAll st rn (.raisedMsg uid un o ((room.is_elevated uid).getD false))) := by
    simp only [raiseHandler]
    split
    · rename_i heq
      rw [hroom] at heq
      cases heq
    · rename_i r heq
      rw [hroom] at heq
      injection heq with heq
      subst heq
      rw [if_neg hnotpos]
  have hgetst : getRoomD st.rooms rn = room := by
    unfold getRoomD
    rw [hroom]
    rfl
  have hlook1 : lookupA (⟨st.sessions, updateRoom (ensureRoom st.rooms rn) rn fun r =>
      { r with raised := r.raised ++ [⟨o, uid, un⟩] }⟩ : ServerState).rooms rn = some ({ room with raised := room.raised ++ [⟨o, uid, un⟩] } : Room) := by
    show lookupA (updateRoom (ensureRoom st.rooms rn) rn _) rn = _
    rw [lookupA_updateRoom_self, lookupA_ensureRoom_self, hgetst]
    rfl
  have hens1 : ensureRoom (⟨st.sessions, updateRoom (ensureRoom st.rooms rn) rn fun r =>
      { r with raised := r.raised ++ [⟨o, uid, un⟩] }⟩ : ServerState).rooms rn = (⟨st.sessions, updateRoom (ensureRoom st.rooms rn) rn fun r =>
      { r with raised := r.raised ++ [⟨o, uid, un⟩] }⟩ : ServerState).rooms :=
    ensureRoom_of_contains (by rw [containsA, hlook1]; rfl)
  have hget1 : getRoomD (⟨st.sessions, updateRoom (ensureRoom st.rooms rn) rn fun r =>
      { r with raised := r.raised ++ [⟨o, uid, un⟩] }⟩ : ServerState).rooms rn = ({ room with raised := room.raised ++ [⟨o, uid, un⟩] } : Room) := by
    unfold getRoomD
    rw [hlook1]
    rfl
  have hfA : ({ room with raised := room.raised ++ [⟨o, uid, un⟩] } : Room).raised.filter
      (fun e => decide (e.object = o ∧ e.owner_id = uid)) = [⟨o, uid, un⟩] := by
    show (room.raised ++ [(⟨o, uid, un⟩ : Raised)]).filter
      (fun e => decide (e.object = o ∧ e.owner_id = uid)) = _
    rw [List.filter_append, List.length_eq_zero.mp hfresh]
    simp [List.filter_cons, hp0]
  have h6 : raiseHandler (⟨st.sessions, updateRoom (ensureRoom st.rooms rn) rn fun r =>
      { r with raised := r.raised ++ [⟨o, uid, un⟩] }⟩ : ServerState) o uid un rn = some ((⟨st.sessions, updateRoom (ensureRoom st.rooms rn) rn fun r =>
      { r with raised := r.raised ++ [⟨o, uid, un⟩] }⟩ : ServerState),
      [(uid, OutMsg.errorMsg "already_raised" "Refusing to raise, already raised")]) := by
    simp only [raiseHandler]
    split
    · rename_i heq
      rw [hlook1] at heq
      cases heq
    · rename_i r heq
      rw [hlook1] at heq
      injection heq with heq
      subst heq
      rw [if_pos (by rw [hfA]; simp)]
      simp only [sendErrorUser]
      rw [sendUser_self hlook1 hconn hsess]
  have hlook2 : lookupA (⟨st.sessions, updateRoom (⟨st.sessions, updateRoom (ensureRoom st.rooms rn) rn fun r =>
      { r with raised := r.raised ++ [⟨o, uid, un⟩] }⟩ : ServerState).rooms rn fun r =>
      { r with raised := r.raised.filter fun e =>
          !(decide (e.object = o ∧ e.owner_id = uid)) }⟩ : ServerState).rooms rn
      = some { ({ room with raised := room.raised ++ [⟨o, uid, un⟩] } : Room) with raised := ({ room with raised := room.raised ++ [⟨o, uid, un⟩] } : Room).raised.filter fun e =>
          !(decide (e.object = o ∧ e.owner_id = uid)) } := by
    show lookupA (updateRoom (⟨st.sessions, updateRoom (ensureRoom st.rooms rn) rn fun r =>
      { r with raised := r.raised ++ [⟨o, uid, un⟩] }⟩ : ServerState).rooms rn _) rn = _
    rw [lookupA_updateRoom_self, hlook1]
    rfl
  have hraisedEq : (({ room with raised := room.raised ++ [⟨o, uid, un⟩] } : Room).raised.filter fun e =>
      !(decide (e.object = o ∧ e.owner_id = uid))) = room.raised := by
    show ((room.raised ++ [(⟨o, uid, un⟩ : Raised)]).filter
      (fun e => !(decide (e.object = o ∧ e.owner_id = uid)))) = _
    rw [List.filter_append]
    rw [filter_not_id (all_false_of_filter_len_zero hfresh)]
    simp [List.filter_cons, hp0]
  have h2 : lowerHandler (⟨st.sessions, updateRoom (ensureRoom st.rooms rn) rn fun r =>
      { r with raised := r.raised ++ [⟨o, uid, un⟩] }⟩ : ServerState) o uid un rn
      = some ((⟨st.sessions, updateRoom (⟨st.sessions, updateRoom (ensureRoom st.rooms rn) rn fun r =>
      { r with raised := r.raised ++ [⟨o, uid, un⟩] }⟩ : ServerState).rooms rn fun r =>
          { r with raised := r.raised.filter fun e =>
              !(decide (e.object = o ∧ e.owner_id = uid)) }⟩ : ServerState),
        sendAll (⟨st.sessions, updateRoom (⟨st.sessions, updateRoom (ensureRoom st.rooms rn) rn fun r =>
      { r with raised := r.raised ++ [⟨o, uid, un⟩] }⟩ : ServerState).rooms rn fun r =>
          { r with raised := r.raised.filter fun e =>
              !(decide (e.object = o ∧ e.owner_id = uid)) }⟩ : ServerState) rn
          (.lowerMsg uid un o
            ((({ ({ room with raised := room.raised ++ [⟨o, uid, un⟩] } : Room) with raised := ({ room with raised := room.raised ++ [⟨o, uid, un⟩] } : Room).raised.filter fun e =>
                !(decide (e.object = o ∧ e.owner_id = uid)) } : Room).is_elevated
              uid).getD false))) := by
    simp only [lowerHandler]
    rw [hens1, hget1, hfA]
    rw [if_neg (by simp)]
    split
    · rename_i heq
      rw [lookupA_updateRoom_self, hlook1] at heq
      cases heq
    · rename_i r2 heq
      rw [lookupA_updateRoom_self, hlook1] at heq
      simp only [Option.map_some'] at heq
      injection heq with heq
      subst heq
      rfl
  refine ⟨_, _, _, _, h1, rfl, h2, ?_, ?_, h6⟩
  · exact ⟨_, hlook2, hraisedEq⟩
  · refine ⟨({ room with raised := room.raised ++ [⟨o, uid, un⟩] } : Room), hlook1, ?_⟩
    rw [hfA]
    rfl

/-- C8 witness: raise then lower of key `("x", 1)` in the one-user room of
`exSt1`. -/
theorem c8_raise_lower_roundtrip_witness :
    ∃ st1 ds1 st2 ds2,
      raiseHandler exSt1 (Json.str "x") 1 "a" "R" = some (st1, ds1) ∧
      ds1 = sendAll exSt1 "R" (.raisedMsg 1 "a" (Json.str "x")
        (((Room.mk [] [] [(1, ⟨"a", true⟩)]).is_elevated 1).getD false)) ∧
      lowerHandler st1 (Json.str "x") 1 "a" "R" = some (st2, ds2) ∧
      (∃ room2, lookupA st2.rooms "R" = some room2 ∧
        room2.raised = (Room.mk [] [] [(1, ⟨"a", true⟩)]).raised) ∧
      (∃ room1, lookupA st1.rooms "R" = some room1 ∧
        (room1.raised.filter fun e =>
          decide (e.object = Json.str "x" ∧ e.owner_id = 1)).length = 1) ∧
      raiseHandler st1 (Json.str "x") 1 "a" "R"
        = some (st1, [(1, OutMsg.errorMsg "already_raised"
            "Refusing to raise, already raised")]) :=
  c8_raise_lower_roundtrip exSt1 (Json.str "x") 1 "a" "R"
    (Room.mk [] [] [(1, ⟨"a", true⟩)])
    (by decide) (by decide) (by decide) (by decide)

/-- C9: from every reachable coordinator state, processing a command that
arises from a session that has joined (its room exists and holds the
sender) never hits a failing partial operation: the room lookups of the
`Raise` and `Instant` handlers, the `position().unwrap()` calls of the
poll handlers and the per-voter `connected` lookup of the privilege
replay all succeed, so the dispatch completes with `some` and no error
condition terminates the coordinator. -/
theorem c9_no_panic_on_reachable (s : ServerState) (c : Cmd)
    (hreach : Reachable s) (hwf : WF s c) : (step s c).isSome = true :=
  step_isSome s c (reachable_inv hreach) hwf

/-- C9 witness: elevating the voter in a reachable state with users 1 and
2, an open poll and a recorded vote. -/
theorem c9_no_panic_on_reachable_witness :
    (step exStVoted (Cmd.elevateCmd 2 1 "R")).isSome = true := by
  have h1 : Reachable exSt1 :=
    Reachable.next (c := Cmd.joinCmd 1 "a" "R") Reachable.init trivial rfl
  have h2 : Reachable (join exSt1 2 "b" "R").1 :=
    Reachable.next (c := Cmd.joinCmd 2 "b" "R") h1 trivial rfl
  have h3 : Reachable (pollCreate (join exSt1 2 "b" "R").1 "p" 1 "a" "R").1 :=
    Reachable.next (c := Cmd.pollCmd "p" 1 "a" "R") h2 ⟨_, rfl, rfl⟩ rfl
  have h4 : Reachable (((pollOptionAdd (pollCreate (join exSt1 2 "b" "R").1 "p" 1 "a" "R").1
      "p" "x" 1 "a" "R").getD ((pollCreate (join exSt1 2 "b" "R").1 "p" 1 "a" "R").1, [])).1) :=
    Reachable.next (c := Cmd.pollOptionCmd "p" "x" 1 "a" "R") h3 ⟨_, rfl, rfl⟩ rfl
  have h5 : Reachable exStVoted :=
    Reachable.next (c := Cmd.voteCmd "p" "x" 2 "b" "R") h4 ⟨_, rfl, rfl⟩ rfl
  exact c9_no_panic_on_reachable exStVoted (Cmd.elevateCmd 2 1 "R") h5 ⟨_, rfl, rfl⟩

/-- C10 (counterexample): the id counter is a wrapping `AtomicUsize`, so
the 2^64-th `get_id` call issues the id 0, contradicting the claim that
every issued session id is at least 1. -/
theorem c10_counterexample : nthIssuedId (2 ^ 64 - 1) = 0 := by
  unfold nthIssuedId
  rw [idCounterAt_closed]
  show (1 + (2 ^ 64 - 1)) % usizeMod = 0
  rw [usizeMod_val]
  norm_num

/-- C10 (amended): `all(room)` is implemented as `skip(room, 0)`; each of
the first `2^64 - 1` ids issued by the generator is at least 1; and in
any state whose connected members all have nonzero ids registered in
`sessions`, an `all(room)` broadcast is delivered to every member. -/
theorem c10_broadcast_all (st : ServerState) (rn : String) (room : Room)
    (m : OutMsg) (k : Nat)
    (hroom : lookupA st.rooms rn = some room)
    (hmem : ∀ e ∈ room.connected, e.1 ≠ 0 ∧ e.1 ∈ st.sessions)
    (hk : k < 2 ^ 64 - 1) :
    sendAll st rn m = sendSkip st rn m 0 ∧
    sendAll st rn m = room.connected.map (fun e => (e.1, m)) ∧
    1 ≤ nthIssuedId k := by
  refine ⟨rfl, ?_, ?_⟩
  · show sendSkip st rn m 0 = _
    unfold sendSkip
    rw [hroom]
    have hgen : ∀ l : List (Nat × User), (∀ e ∈ l, e.1 ≠ 0 ∧ e.1 ∈ st.sessions) →
        (l.filterMap fun e =>
          if e.1 ≠ 0 ∧ e.1 ∈ st.sessions then some (e.1, m) else none)
          = l.map fun e => (e.1, m) := by
      intro l hl
      induction l with
      | nil => rfl
      | cons e t ih =>
        rw [List.filterMap_cons, List.map_cons]
        rw [if_pos (hl e (List.mem_cons_self _ _))]
        rw [ih (fun x hx => hl x (List.mem_cons_of_mem _ hx))]
    exact hgen room.connected hmem
  · show 1 ≤ (getId (idCounterAt k)).1
    show 1 ≤ idCounterAt k
    rw [idCounterAt_closed, usizeMod_val]
    omega

/-- C10 witness: the broadcast in the one-member reachable room, and the
first issued id. -/
theorem c10_broadcast_all_witness :
    (sendAll exSt1 "R" (OutMsg.pollMsg "t") = sendSkip exSt1 "R" (OutMsg.pollMsg "t") 0 ∧
     sendAll exSt1 "R" (OutMsg.pollMsg "t")
       = (Room.mk [] [] [(1, ⟨"a", true⟩)]).connected.map
           (fun e => (e.1, OutMsg.pollMsg "t")) ∧
     1 ≤ nthIssuedId 0) :=
  c10_broadcast_all exSt1 "R" (Room.mk [] [] [(1, ⟨"a", true⟩)])
    (OutMsg.pollMsg "t") 0 (by decide) (by decide) (by norm_num)

end Vimeet
